import Mathlib

/-!
Shallow embedding of the reactive dependency-tracking runtime in
src/self-code/4.8计算属性和lazy.js (the fuller of the two near-duplicate
iterations), together with the `track` function of src/self-code/4-6.js
(which differs by lacking the `if (!activeEffect) return` guard).

Correspondence to the source:
- `bucket`  : WeakMap target -> Map key -> Set of effect functions.
  Tracked objects are identified by `ObjId` (the demo `data` object is id 0;
  each computed allocates a fresh object id for its own `value` key), keys
  by `Key := String`, effect functions by `EffectId` (allocation order).
  A JS `Set` is modeled as an insertion-ordered duplicate-free `List`.
- `EffRec.deps` : the `effectFn.deps` array.  In JS it stores references to
  the live `Set` objects; since a bucket entry, once created, is never
  replaced, a set's identity is exactly its `(object, key)` address, which
  is what we store.
- `State.effectStack` / `State.activeEffect` : the module-level variables.
- Effect bodies (the `fn` passed to `effect`) are given by a small syntax
  `Body` covering everything the demo bodies do: proxied field reads and
  writes, arithmetic, sequencing, branching, throwing, nested `effect`
  calls and computed `value` reads.  `exec` interprets a body exactly as
  the proxied JS would run it, with a fuel parameter (the JS can genuinely
  loop forever; fuel exhaustion is reported as `Err.fuel`).
- The only scheduler the program defines is the one `computed` installs,
  so `options.scheduler` is modeled as `Sched` (absent, or the computed
  scheduler of a given computed record).
- An event trace records run starts/ends, dependency collection, and raw
  data reads/writes, so that invocation counts and read observations can
  be stated.
-/

abbrev ObjId := Nat

abbrev EffectId := Nat

abbrev CompId := Nat

abbrev Key := String

/-- Errors: `thrown` models a JS exception raised by a body (`throw`), or the
TypeError of `4-6.js`'s unguarded `activeEffect.deps.push`; `fuel` is the
model artifact for non-termination; `badRef` marks model-internal lookups of
ids that do not exist (unreachable for states built by the script runner). -/
inductive Err where
  | thrown
  | fuel
  | badRef
deriving DecidableEq, Repr

/-- Trace events: `runStart u`/`runEnd u` bracket one execution of effect
`u`'s wrapped function (`effectFn` entered / returned normally), `track`
records a dependency collection, `readEv`/`writeEv` record raw data access
with the value observed / stored. -/
inductive Event where
  | runStart (u : EffectId)
  | runEnd (u : EffectId)
  | track (u : EffectId) (o : ObjId) (k : Key)
  | readEv (o : ObjId) (k : Key) (v : Int)
  | writeEv (o : ObjId) (k : Key) (v : Int)
deriving DecidableEq, Repr

/-- The scheduler option: `computed(getter)` installs the only scheduler the
program defines (flip `dirty`, re-trigger the computed's own "value" key). -/
inductive Sched where
  | noSched
  | computedSched (c : CompId)
deriving DecidableEq, Repr

/-- The `options` object passed to `effect`. -/
structure EffOptions where
  lazy : Bool
  scheduler : Sched
deriving DecidableEq, Repr

/-- Syntax of effect bodies (the `fn` closures of the demo programs).
`iteB` branches on the condition being nonzero; `effectCall` models a nested
`effect(fn)` call (creates and immediately runs a fresh non-lazy effect and
returns its id); `readComp` models reading `someComputed.value`. -/
inductive Body where
  | lit (n : Int)
  | readF (o : ObjId) (k : Key)
  | writeF (o : ObjId) (k : Key) (e : Body)
  | addB (a b : Body)
  | seqB (a b : Body)
  | iteB (c t e : Body)
  | throwB
  | effectCall (b : Body)
  | readComp (c : CompId)
deriving DecidableEq, Repr

/-- One effect function: wrapped body, its `deps` array (addresses of the
subscriber sets it has been added to), and its `options`. -/
structure EffRec where
  body : Body
  deps : List (ObjId × Key)
  options : EffOptions
deriving DecidableEq, Repr

/-- One computed record: its lazy effect, its own object identity (the key
under which `track(obj, 'value')`/`trigger(obj, 'value')` run), the cached
`value` (JS `null` before the first computation) and the `dirty` flag. -/
structure CompRec where
  eff : EffectId
  obj : ObjId
  value : Option Int
  dirty : Bool
deriving DecidableEq, Repr

/-- The whole mutable state of the module. -/
structure State where
  bucket : List ((ObjId × Key) × List EffectId)
  data : List ((ObjId × Key) × Int)
  effects : List (EffectId × EffRec)
  comps : List (CompId × CompRec)
  effectStack : List EffectId
  activeEffect : Option EffectId
  nextEff : Nat
  nextObj : Nat
deriving DecidableEq, Repr

/-- Association-list lookup (models Map.get / WeakMap.get). -/
def assocLook {α β : Type} [DecidableEq α] : List (α × β) → α → Option β
  | [], _ => none
  | (a, b) :: t, x => if x = a then some b else assocLook t x

/-- Association-list update (models Map.set: update in place, else append). -/
def assocSet {α β : Type} [DecidableEq α] : List (α × β) → α → β → List (α × β)
  | [], x, y => [(x, y)]
  | (a, b) :: t, x, y => if x = a then (x, y) :: t else (a, b) :: assocSet t x y

/-- The subscriber set for `(o, k)` (empty when the bucket has no entry). -/
def subsOf (s : State) (o : ObjId) (k : Key) : List EffectId :=
  (assocLook s.bucket (o, k)).getD []

/-- The `deps` array of effect `u` (empty when `u` has no record). -/
def depsOf (s : State) (u : EffectId) : List (ObjId × Key) :=
  (assocLook s.effects u).map EffRec.deps |>.getD []

/-- The raw stored value of field `(o, k)` (0 models JS `undefined`; every
field the scenarios touch is initialized). -/
def dataOf (s : State) (o : ObjId) (k : Key) : Int :=
  (assocLook s.data (o, k)).getD 0

def setData (s : State) (o : ObjId) (k : Key) (v : Int) : State :=
  { s with data := assocSet s.data (o, k) v }

def compOf (s : State) (c : CompId) : Option CompRec :=
  assocLook s.comps c

/-- Model of `activeEffect.deps.push(deps)` — append the set address to `u`'s deps
array (JS pushes unconditionally, so duplicates can accumulate). -/
def pushDep (s : State) (u : EffectId) (p : ObjId × Key) : State :=
  match assocLook s.effects u with
  | none => s
  | some r => { s with effects := assocSet s.effects u { r with deps := r.deps ++ [p] } }

/-- Model of `track(target, key)` of 4.8计算属性和lazy.js lines 21-34:
no-op without an active effect; otherwise create the depsMap / deps set as
needed, `deps.add(activeEffect)`, `activeEffect.deps.push(deps)`.
Returns the updated state together with the emitted trace. -/
def track (s : State) (o : ObjId) (k : Key) : State × List Event :=
  match s.activeEffect with
  | none => (s, [])
  | some u =>
    let ds := subsOf s o k
    let ds' := if u ∈ ds then ds else ds ++ [u]
    let s' := { s with bucket := assocSet s.bucket (o, k) ds' }
    (pushDep s' u (o, k), [Event.track u o k])

/-- Model of `deps.delete(effectFn)` for the set at address `p`. -/
def removeSub (s : State) (p : ObjId × Key) (u : EffectId) : State :=
  { s with bucket := assocSet s.bucket p (((assocLook s.bucket p).getD []).erase u) }

def setDeps (s : State) (u : EffectId) (d : List (ObjId × Key)) : State :=
  match assocLook s.effects u with
  | none => s
  | some r => { s with effects := assocSet s.effects u { r with deps := d } }

/-- Model of `cleanup(effectFn)` of 4.8计算属性和lazy.js lines 99-105: delete the
effect from every set in its deps array, then empty the array. -/
def cleanup (s : State) (u : EffectId) : State :=
  setDeps ((depsOf s u).foldl (fun st p => removeSub st p u) s) u []

def setComp (s : State) (c : CompId) (v : Option Int) (d : Bool) : State :=
  match assocLook s.comps c with
  | none => s
  | some r => { s with comps := assocSet s.comps c { r with value := v, dirty := d } }

/-- The snapshot `effectsToRun` that `trigger` builds (lines 43-50): a fresh
collection copied from the live subscriber set, excluding the currently
active effect.  The live set is duplicate-free, so filtering it is exactly
the JS Set-to-Set copy. -/
def effectsToRun (s : State) (o : ObjId) (k : Key) : List EffectId :=
  (subsOf s o k).filter (fun e => !decide (s.activeEffect = some e))

/-- Interpreter requests: evaluate a body, run `trigger(o, k)`, iterate the
snapshot (`effectsToRun.forEach`), invoke one subscriber (scheduler dispatch
of trigger lines 51-57), or run one `effectFn` (lines 74-87). -/
inductive Call where
  | body (b : Body)
  | trig (o : ObjId) (k : Key)
  | allE (l : List EffectId)
  | invoke (u : EffectId)
  | runE (u : EffectId)
deriving DecidableEq, Repr

/-- Interpreter result: final state, emitted trace, and the outcome (a JS
return value or a propagating exception / fuel exhaustion). -/
structure Res where
  st : State
  tr : List Event
  out : Except Err Int

instance : DecidableEq (Except Err Int) := fun a b =>
  match a, b with
  | .ok x, .ok y =>
    if h : x = y then isTrue (by rw [h]) else isFalse (by intro hc; cases hc; exact h rfl)
  | .ok _, .error _ => isFalse (by intro hc; cases hc)
  | .error _, .ok _ => isFalse (by intro hc; cases hc)
  | .error x, .error y =>
    if h : x = y then isTrue (by rw [h]) else isFalse (by intro hc; cases hc; exact h rfl)

instance : DecidableEq Res := fun a b =>
  match a, b with
  | ⟨s1, t1, o1⟩, ⟨s2, t2, o2⟩ =>
    if h : s1 = s2 ∧ t1 = t2 ∧ o1 = o2 then
      isTrue (by obtain ⟨h1, h2, h3⟩ := h; rw [h1, h2, h3])
    else
      isFalse (by intro hc; cases hc; exact h ⟨rfl, rfl, rfl⟩)

/-- The interpreter.  Each branch is a direct transcription of the source:

`.body b` — evaluate a JS expression under the proxy traps:
  a field read is `track(target, key); return target[key]` (get trap,
  lines 8-12); a field write evaluates the right-hand side, stores it,
  then calls `trigger` (set trap, lines 13-17); `effectCall` is
  `effect(fn)` (lines 72-96) with default options, hence run immediately;
  `readComp` is the computed `value` getter (lines 163-172).

`.trig o k` — `trigger(target, key)` lines 37-58: build the snapshot
  excluding the active effect, then iterate it.

`.allE l` — `effectsToRun.forEach(...)`: invoke each element in order;
  a raised exception aborts the iteration and propagates (JS forEach).

`.invoke u` — the per-subscriber dispatch, lines 51-57: run the scheduler
  if the options have one, else call the effect function.  The computed
  scheduler (lines 155-160) is: if not dirty, set dirty and
  `trigger(obj, 'value')`; if already dirty, do nothing.

`.runE u` — `effectFn` lines 74-87: `cleanup`; set `activeEffect`; push;
  run `fn`; pop; restore `activeEffect` to the new stack top; return the
  result.  A JS exception in `fn` propagates out of `effectFn` before the
  pop/restore statements run, which the error branch reproduces. -/
def exec : Nat → State → Call → Res
  | 0, s, _ => ⟨s, [], .error .fuel⟩
  | Nat.succ n, s, c =>
    match c with
    | .body b =>
      match b with
      | .lit v => ⟨s, [], .ok v⟩
      | .readF o k =>
        let p := track s o k
        ⟨p.1, p.2 ++ [Event.readEv o k (dataOf p.1 o k)], .ok (dataOf p.1 o k)⟩
      | .writeF o k e =>
        let r1 := exec n s (.body e)
        match r1.out with
        | .error er => ⟨r1.st, r1.tr, .error er⟩
        | .ok v =>
          let s2 := setData r1.st o k v
          let r2 := exec n s2 (.trig o k)
          ⟨r2.st, r1.tr ++ [Event.writeEv o k v] ++ r2.tr,
            match r2.out with | .ok _ => .ok v | .error er => .error er⟩
      | .addB a b =>
        let r1 := exec n s (.body a)
        match r1.out with
        | .error er => ⟨r1.st, r1.tr, .error er⟩
        | .ok v1 =>
          let r2 := exec n r1.st (.body b)
          match r2.out with
          | .error er => ⟨r2.st, r1.tr ++ r2.tr, .error er⟩
          | .ok v2 => ⟨r2.st, r1.tr ++ r2.tr, .ok (v1 + v2)⟩
      | .seqB a b =>
        let r1 := exec n s (.body a)
        match r1.out with
        | .error er => ⟨r1.st, r1.tr, .error er⟩
        | .ok _ =>
          let r2 := exec n r1.st (.body b)
          ⟨r2.st, r1.tr ++ r2.tr, r2.out⟩
      | .iteB cnd t e =>
        let r1 := exec n s (.body cnd)
        match r1.out with
        | .error er => ⟨r1.st, r1.tr, .error er⟩
        | .ok v =>
          let r2 := exec n r1.st (.body (if v = 0 then e else t))
          ⟨r2.st, r1.tr ++ r2.tr, r2.out⟩
      | .throwB => ⟨s, [], .error .thrown⟩
      | .effectCall b =>
        let u := s.nextEff
        let s1 := { s with
          effects := assocSet s.effects u ⟨b, [], ⟨false, .noSched⟩⟩,
          nextEff := u + 1 }
        let r := exec n s1 (.runE u)
        ⟨r.st, r.tr, match r.out with | .ok _ => .ok (Int.ofNat u) | .error er => .error er⟩
      | .readComp cid =>
        match assocLook s.comps cid with
        | none => ⟨s, [], .error .badRef⟩
        | some cr =>
          if cr.dirty then
            let r := exec n s (.runE cr.eff)
            match r.out with
            | .error er => ⟨r.st, r.tr, .error er⟩
            | .ok v =>
              let s2 := setComp r.st cid (some v) false
              let p := track s2 cr.obj "value"
              ⟨p.1, r.tr ++ p.2, .ok v⟩
          else
            let p := track s cr.obj "value"
            ⟨p.1, p.2, .ok (cr.value.getD 0)⟩
    | .trig o k => exec n s (.allE (effectsToRun s o k))
    | .allE [] => ⟨s, [], .ok 0⟩
    | .allE (u :: rest) =>
      let r1 := exec n s (.invoke u)
      match r1.out with
      | .error er => ⟨r1.st, r1.tr, .error er⟩
      | .ok _ =>
        let r2 := exec n r1.st (.allE rest)
        ⟨r2.st, r1.tr ++ r2.tr, r2.out⟩
    | .invoke u =>
      match assocLook s.effects u with
      | none => ⟨s, [], .error .badRef⟩
      | some r =>
        match r.options.scheduler with
        | .noSched => exec n s (.runE u)
        | .computedSched cid =>
          match assocLook s.comps cid with
          | none => ⟨s, [], .error .badRef⟩
          | some cr =>
            if cr.dirty then ⟨s, [], .ok 0⟩
            else
              let s1 := setComp s cid cr.value true
              exec n s1 (.trig cr.obj "value")
    | .runE u =>
      match assocLook s.effects u with
      | none => ⟨s, [], .error .badRef⟩
      | some r =>
        let s1 := cleanup s u
        let s2 := { s1 with activeEffect := some u, effectStack := s1.effectStack ++ [u] }
        let rb := exec n s2 (.body r.body)
        match rb.out with
        | .error er => ⟨rb.st, Event.runStart u :: rb.tr, .error er⟩
        | .ok v =>
          let st3 := rb.st.effectStack.dropLast
          let s3 := { rb.st with effectStack := st3, activeEffect := st3.getLast? }
          ⟨s3, Event.runStart u :: (rb.tr ++ [Event.runEnd u]), .ok v⟩

/-- Top-level program steps (the statements of the demo driver code, run
with no active effect). -/
inductive Step where
  | newEffect (b : Body)
  | newComputed (g : Body)
  | writeS (o : ObjId) (k : Key) (v : Int)
  | readValueS (c : CompId)
  | readS (o : ObjId) (k : Key)
deriving DecidableEq, Repr

/-- Run one top-level step.  `newComputed` is `computed(getter)` lines
148-174: create the lazy effect with the computed scheduler (not run,
because `options.lazy` is set) and the computed record (`value = null`,
`dirty = true`), allocating a fresh object identity for the returned
object. -/
def runStep (fuel : Nat) (s : State) : Step → Res
  | .newEffect b => exec fuel s (.body (.effectCall b))
  | .newComputed g =>
    let u := s.nextEff
    let cid := s.comps.length
    let ob := s.nextObj
    ⟨{ s with
        effects := assocSet s.effects u ⟨g, [], ⟨true, .computedSched cid⟩⟩,
        nextEff := u + 1,
        comps := assocSet s.comps cid ⟨u, ob, none, true⟩,
        nextObj := ob + 1 }, [], .ok (Int.ofNat cid)⟩
  | .writeS o k v => exec fuel s (.body (.writeF o k (.lit v)))
  | .readValueS c => exec fuel s (.body (.readComp c))
  | .readS o k => exec fuel s (.body (.readF o k))

/-- Run a script of top-level steps; a propagating exception aborts the
remainder (it reaches the top of the JS program). -/
def runScript (fuel : Nat) : State → List Step → Res
  | s, [] => ⟨s, [], .ok 0⟩
  | s, st :: rest =>
    let r := runStep fuel s st
    match r.out with
    | .error er => ⟨r.st, r.tr, .error er⟩
    | .ok _ =>
      let r2 := runScript fuel r.st rest
      ⟨r2.st, r.tr ++ r2.tr, r2.out⟩

/-- Initial state of 4.8计算属性和lazy.js: tracked object 0 is the demo
`data = {foo: 1, bar: 2}`; nothing registered yet. -/
def init48 : State :=
  ⟨[], [((0, "foo"), 1), ((0, "bar"), 2)], [], [], [], none, 0, 1⟩

/-- A generic initial state for the counterexample scenarios: tracked
object 0 with fields c, F, G, K. -/
def initCF : State :=
  ⟨[], [((0, "c"), 0), ((0, "F"), 0), ((0, "G"), 0), ((0, "K"), 0)], [], [], [], none, 0, 1⟩

/-- Number of executions of effect `u` recorded in a trace (getter /
effect-function invocation count). -/
def countRun (u : EffectId) (tr : List Event) : Nat :=
  (tr.filter (fun e => decide (e = Event.runStart u))).length

/-- Events of the most recent (innermost-last) execution of `u` in a trace:
what happened after the last `runStart u`, up to its `runEnd u`. -/
def lastRunEvents (u : EffectId) (tr : List Event) : List Event :=
  ((tr.reverse.takeWhile (fun e => !decide (e = Event.runStart u))).reverse).takeWhile
    (fun e => !decide (e = Event.runEnd u))

/-- The dependencies collected for `u` during its most recent execution. -/
def lastRunReads (u : EffectId) (tr : List Event) : List (ObjId × Key) :=
  (lastRunEvents u tr).filterMap (fun e =>
    match e with
    | .track w o k => if w = u then some (o, k) else none
    | _ => none)

/-- The core invariants of the registry and the execution context:
bidirectional consistency (a unit is in a field's subscriber set iff that
set's address is in the unit's deps array), duplicate-freeness of the
subscriber sets (JS Sets), `activeEffect` always being the top of
`effectStack`, every stacked effect having a record, and ids at or above
`nextEff` being unallocated. -/
structure SysInv (s : State) : Prop where
  bidir : ∀ u o k, u ∈ subsOf s o k ↔ (o, k) ∈ depsOf s u
  nodupS : ∀ o k, (subsOf s o k).Nodup
  activeTop : s.activeEffect = s.effectStack.getLast?
  stackLive : ∀ u ∈ s.effectStack, (assocLook s.effects u).isSome
  liveFresh : ∀ u, s.nextEff ≤ u → assocLook s.effects u = none

/-- Bundle of facts propagated through the interpreter by induction:
the invariants hold in the result state; on normal return the effect stack
and `activeEffect` are restored exactly; and, for any effect `u` that is
not (re)started inside the call, membership of `u` in subscriber sets and
the contents of its deps array change exactly by the `track u` events of
the emitted trace. -/
def MetaOK (s : State) (r : Res) : Prop :=
  SysInv r.st
  ∧ (∀ v, r.out = Except.ok v →
      r.st.effectStack = s.effectStack ∧ r.st.activeEffect = s.activeEffect)
  ∧ (∀ u, Event.runStart u ∉ r.tr → ∀ o k,
      (u ∈ subsOf r.st o k ↔ u ∈ subsOf s o k ∨ Event.track u o k ∈ r.tr)
      ∧ ((o, k) ∈ depsOf r.st u ↔ (o, k) ∈ depsOf s u ∨ Event.track u o k ∈ r.tr))

/-- Data-observation bundle: if the call writes nothing to `(o, k)`, then
the stored value of `(o, k)` is unchanged and every raw read of `(o, k)`
during the call observed that stored value. -/
def DataOK (s : State) (o : ObjId) (k : Key) (r : Res) : Prop :=
  (∀ w, Event.writeEv o k w ∉ r.tr) →
    dataOf r.st o k = dataOf s o k
    ∧ (∀ x, Event.readEv o k x ∈ r.tr → x = dataOf s o k)

/-- State touched by the `track` of src/self-code/4-6.js: the bucket (whose
JS Sets can contain `null`, hence `Option EffectId` elements), the effects'
deps arrays, and `activeEffect`. -/
structure State46 where
  bucket : List ((ObjId × Key) × List (Option EffectId))
  effects : List (EffectId × List (ObjId × Key))
  activeEffect : Option EffectId
deriving DecidableEq, Repr

/-- Model of `track(target, key)` of 4-6.js lines 21-33.  Unlike the 4.8 version it
has no `if (!activeEffect) return` guard: it creates the depsMap and deps
set as needed, performs `deps.add(activeEffect)` (adding `null` to the Set
when no effect is active), and then `activeEffect.deps.push(deps)`, which
raises a TypeError when `activeEffect` is `null` — after the bucket was
already mutated. -/
def track46 (s : State46) (o : ObjId) (k : Key) : State46 × Except Err Unit :=
  let ds := (assocLook s.bucket (o, k)).getD []
  let ds' := if s.activeEffect ∈ ds then ds else ds ++ [s.activeEffect]
  let s' : State46 := { s with bucket := assocSet s.bucket (o, k) ds' }
  match s.activeEffect with
  | none => (s', .error .thrown)
  | some u =>
    match assocLook s'.effects u with
    | none => (s', .error .badRef)
    | some deps => ({ s' with effects := assocSet s'.effects u (deps ++ [(o, k)]) }, .ok ())

/-- Decidable check that a trace contains no raw write to `(o, k)`. -/
def noWritesTo (o : ObjId) (k : Key) (tr : List Event) : Bool :=
  tr.all (fun e => match e with
    | .writeEv o' k' _ => !(decide (o' = o ∧ k' = k))
    | _ => true)

/-- The scenario driver effect V of the re-entrancy counterexamples: V reads
G (subscribing to it) and writes c back to 0. -/
def vBody : Body := .seqB (.readF 0 "G") (.writeF 0 "c" (.lit 0))

/-- Common prefix of the re-entrancy counterexamples: create V, then set
c to 1 (no subscribers of c yet). -/
def preCF : State := (runScript 20 initCF [.newEffect vBody, .writeS 0 "c" 1]).st

/-- Effect U of the C1 counterexample: reads c; while c is set it also reads
F and writes G.  Writing G re-runs V, whose write to c re-enters U; the
re-entrant run cleans U out of F's subscriber set and, with c now 0, never
re-reads F. -/
def uBodyC1 : Body :=
  .iteB (.readF 0 "c") (.seqB (.readF 0 "F") (.writeF 0 "G" (.lit 1))) (.lit 0)

def c1res : Res := runStep 20 preCF (.newEffect uBodyC1)

def c1wPre : State := (runStep 20 init48 (.newEffect (.readF 0 "foo"))).st

/-- The C2 scenario effect: reads foo, then writes foo from inside its own
run (the self-write pattern of the `obj.foo++` example). -/
def c2Body : Body := .seqB (.readF 0 "foo") (.writeF 0 "foo" (.lit 5))

def c2create : Res := runStep 30 init48 (.newEffect c2Body)

def c2write : Res := runStep 30 c2create.st (.writeS 0 "foo" 7)

/-- Effect U of the C3 counterexample: like the C1 one, but after writing G
(inside the taken branch) it also reads K.  The nested re-entrant run of U
reads only c, yet the tail of the interrupted outer run still subscribes U
to K afterwards. -/
def uBodyC3 : Body :=
  .iteB (.readF 0 "c")
    (.seqB (.readF 0 "F") (.seqB (.writeF 0 "G" (.lit 1)) (.readF 0 "K")))
    (.lit 0)

def c3res : Res := runStep 20 preCF (.newEffect uBodyC3)

def c3wPre : State := (runStep 20 init48 (.newEffect (.readF 0 "bar"))).st

/-- The getter of the demo computed: `() => obj.foo + obj.bar`. -/
def sumGetter : Body := .addB (.readF 0 "foo") (.readF 0 "bar")

def c4s0 : State := (runStep 30 init48 (.newComputed sumGetter)).st

def c4r1 : Res := runStep 30 c4s0 (.readValueS 0)

def c4r2 : Res := runStep 30 c4r1.st (.readValueS 0)

def c4r3 : Res := runStep 30 c4r2.st (.writeS 0 "foo" 5)

def c4r4 : Res := runStep 30 c4r3.st (.readValueS 0)

/-- The state after `computed(() => foo + bar)` and one value read. -/
def c5s1 : State := (runScript 30 init48 [.newComputed sumGetter, .readValueS 0]).st

/-- The state shape reached after one or more upstream writes with no
intervening reads: foo holds the last written value, the computed is dirty,
the stale cached value 3 is untouched, and the getter effect is still
subscribed to foo and bar. -/
def c5T (x : Int) : State :=
  ⟨[((0, "foo"), [0]), ((0, "bar"), [0])],
   [((0, "foo"), x), ((0, "bar"), 2)],
   [(0, ⟨.addB (.readF 0 "foo") (.readF 0 "bar"), [(0, "foo"), (0, "bar")],
        ⟨true, .computedSched 0⟩⟩)],
   [(0, ⟨0, 1, some 3, true⟩)],
   [], none, 1, 2⟩

/-- The state after the pending recompute has run: cached value x + 2,
clean. -/
def c5clean (x : Int) : State :=
  ⟨[((0, "foo"), [0]), ((0, "bar"), [0])],
   [((0, "foo"), x), ((0, "bar"), 2)],
   [(0, ⟨.addB (.readF 0 "foo") (.readF 0 "bar"), [(0, "foo"), (0, "bar")],
        ⟨true, .computedSched 0⟩⟩)],
   [(0, ⟨0, 1, some (x + 2), false⟩)],
   [], none, 1, 2⟩

/-- The last element of x :: l. -/
def lastD (x : Int) : List Int → Int
  | [] => x
  | v :: l => lastD v l

def c5writes (l : List Int) : List Step := l.map (fun v => Step.writeS 0 "foo" v)

def c6res : Res := runStep 20 init48 (.newEffect .throwB)

def c6wPre : State :=
  (runStep 20 init48 (.newEffect (.seqB (.readF 0 "foo") (.readF 0 "bar")))).st

/-- The C7 faulty subscriber: reads foo; raises whenever foo is nonzero. -/
def badBody : Body := .iteB (.readF 0 "foo") .throwB (.lit 0)

def c7state : State :=
  (runScript 30 init48 [.writeS 0 "foo" 0, .newEffect badBody, .newEffect (.readF 0 "foo")]).st

def c7res : Res := runStep 30 c7state (.writeS 0 "foo" 1)

def s46 : State46 := ⟨[], [], none⟩

instance : DecidableEq (Except Err Unit) := fun a b =>
  match a, b with
  | .ok (), .ok () => isTrue rfl
  | .ok _, .error _ => isFalse (by intro hc; cases hc)
  | .error _, .ok _ => isFalse (by intro hc; cases hc)
  | .error x, .error y =>
    if h : x = y then isTrue (by rw [h]) else isFalse (by intro hc; cases hc; exact h rfl)

/-- The C9 outer effect: creates and runs a nested effect (which reads
bar), then reads foo — the post-nesting read must be attributed to the
outer effect. -/
def c9outer : Body := .seqB (.effectCall (.readF 0 "bar")) (.readF 0 "foo")

def c9res : Res := runStep 30 init48 (.newEffect c9outer)

def c9wPre : State :=
  { (runStep 20 init48 (.newEffect (.readF 0 "foo"))).st with
      activeEffect := some 0, effectStack := [0] }

/-- The C10 overwriting subscriber: reads foo, then writes foo := 7 from
inside its own run. -/
def c10body0 : Body := .seqB (.readF 0 "foo") (.writeF 0 "foo" (.lit 7))

def c10state : State :=
  (runScript 30 init48 [.newEffect c10body0, .newEffect (.readF 0 "foo")]).st

def c10res : Res := runStep 30 c10state (.writeS 0 "foo" 5)

def c10w : State := (runStep 20 init48 (.newEffect (.seqB (.readF 0 "bar") (.readF 0 "foo")))).st

theorem assocLook_set_self {α β : Type} [DecidableEq α] (l : List (α × β)) (x : α) (y : β) :
    assocLook (assocSet l x y) x = some y := by
  induction l with
  | nil => simp [assocSet, assocLook]
  | cons h t ih =>
    obtain ⟨a, b⟩ := h
    by_cases hx : x = a
    · simp [assocSet, hx, assocLook]
    · simp [assocSet, hx, assocLook, ih]

theorem assocLook_set_other {α β : Type} [DecidableEq α] (l : List (α × β)) (x x' : α) (y : β)
    (h : x' ≠ x) : assocLook (assocSet l x y) x' = assocLook l x' := by
  induction l with
  | nil => simp [assocSet, assocLook, h]
  | cons hd t ih =>
    obtain ⟨a, b⟩ := hd
    by_cases hx : x = a
    · subst hx; simp [assocSet, assocLook, h]
    · by_cases hx' : x' = a
      · simp [assocSet, hx, assocLook, hx']
      · simp [assocSet, hx, assocLook, hx', ih]

theorem pushDep_proj (s : State) (u : EffectId) (p : ObjId × Key) :
    (pushDep s u p).bucket = s.bucket ∧ (pushDep s u p).data = s.data
    ∧ (pushDep s u p).comps = s.comps ∧ (pushDep s u p).effectStack = s.effectStack
    ∧ (pushDep s u p).activeEffect = s.activeEffect ∧ (pushDep s u p).nextEff = s.nextEff := by
  unfold pushDep; cases assocLook s.effects u <;> simp

theorem setDeps_proj (s : State) (u : EffectId) (d : List (ObjId × Key)) :
    (setDeps s u d).bucket = s.bucket ∧ (setDeps s u d).data = s.data
    ∧ (setDeps s u d).comps = s.comps ∧ (setDeps s u d).effectStack = s.effectStack
    ∧ (setDeps s u d).activeEffect = s.activeEffect ∧ (setDeps s u d).nextEff = s.nextEff := by
  unfold setDeps; cases assocLook s.effects u <;> simp

theorem setComp_proj (s : State) (c : CompId) (v : Option Int) (d : Bool) :
    (setComp s c v d).bucket = s.bucket ∧ (setComp s c v d).data = s.data
    ∧ (setComp s c v d).effects = s.effects ∧ (setComp s c v d).effectStack = s.effectStack
    ∧ (setComp s c v d).activeEffect = s.activeEffect ∧ (setComp s c v d).nextEff = s.nextEff := by
  unfold setComp; cases assocLook s.comps c <;> simp

theorem track_proj (s : State) (o : ObjId) (k : Key) :
    (track s o k).1.effectStack = s.effectStack
    ∧ (track s o k).1.activeEffect = s.activeEffect
    ∧ (track s o k).1.data = s.data
    ∧ (track s o k).1.comps = s.comps
    ∧ (track s o k).1.nextEff = s.nextEff := by
  cases h : s.activeEffect with
  | none => simp [track, h]
  | some u =>
    simp only [track, h]
    exact ⟨(pushDep_proj _ _ _).2.2.2.1, (pushDep_proj _ _ _).2.2.2.2.1,
      (pushDep_proj _ _ _).2.1, (pushDep_proj _ _ _).2.2.1, (pushDep_proj _ _ _).2.2.2.2.2⟩

theorem track_tr_none (s : State) (o : ObjId) (k : Key) (h : s.activeEffect = none) :
    track s o k = (s, []) := by simp [track, h]

theorem track_tr_some (s : State) (o : ObjId) (k : Key) (u : EffectId)
    (h : s.activeEffect = some u) : (track s o k).2 = [Event.track u o k] := by
  simp [track, h]

theorem subsOf_pushDep (s : State) (u : EffectId) (p : ObjId × Key) (o : ObjId) (k : Key) :
    subsOf (pushDep s u p) o k = subsOf s o k := by
  simp [subsOf, (pushDep_proj s u p).1]

theorem depsOf_pushDep_other (s : State) (u : EffectId) (p : ObjId × Key) (w : EffectId)
    (hw : w ≠ u) : depsOf (pushDep s u p) w = depsOf s w := by
  unfold pushDep
  cases hr : assocLook s.effects u with
  | none => rfl
  | some r => simp [depsOf, assocLook_set_other _ _ _ _ hw]

theorem subsOf_track_eq (s : State) (o : ObjId) (k : Key) (u : EffectId)
    (h : s.activeEffect = some u) (o' : ObjId) (k' : Key) :
    subsOf (track s o k).1 o' k'
      = if (o', k') = (o, k)
        then (if u ∈ subsOf s o k then subsOf s o k else subsOf s o k ++ [u])
        else subsOf s o' k' := by
  simp only [track, h, subsOf_pushDep]
  by_cases hp : (o', k') = (o, k)
  · obtain ⟨ho, hk⟩ := Prod.mk.inj hp
    subst ho; subst hk
    rw [if_pos rfl]
    simp [subsOf, assocLook_set_self]
  · rw [if_neg hp]
    simp [subsOf, assocLook_set_other _ _ _ _ hp]

theorem mem_subs_track (s : State) (o : ObjId) (k : Key) (v : EffectId) (o' : ObjId) (k' : Key) :
    v ∈ subsOf (track s o k).1 o' k' ↔
      v ∈ subsOf s o' k' ∨ ((o', k') = (o, k) ∧ s.activeEffect = some v) := by
  cases h : s.activeEffect with
  | none => simp [track, h]
  | some u =>
    simp only [subsOf_track_eq s o k u h, h]
    by_cases hp : (o', k') = (o, k)
    · obtain ⟨ho, hk⟩ := Prod.mk.inj hp
      subst ho; subst hk
      rw [if_pos rfl]
      by_cases hu : u ∈ subsOf s o' k'
      · rw [if_pos hu]
        aesop
      · rw [if_neg hu]
        aesop
    · rw [if_neg hp]
      aesop

theorem depsOf_track_other (s : State) (o : ObjId) (k : Key) (w : EffectId)
    (h : s.activeEffect ≠ some w) : depsOf (track s o k).1 w = depsOf s w := by
  cases ha : s.activeEffect with
  | none => simp [track, ha]
  | some u =>
    have huw : w ≠ u := fun he => h (he ▸ ha)
    simp only [track, ha]
    rw [depsOf_pushDep_other _ _ _ _ huw]
    rfl

theorem depsOf_track_self (s : State) (o : ObjId) (k : Key) (u : EffectId)
    (h : s.activeEffect = some u) (hr : (assocLook s.effects u).isSome) :
    depsOf (track s o k).1 u = depsOf s u ++ [(o, k)] := by
  have key : ∀ (s₂ : State), s₂.effects = s.effects →
      depsOf (pushDep s₂ u (o, k)) u = depsOf s u ++ [(o, k)] := by
    intro s₂ he
    obtain ⟨r, hr'⟩ := Option.isSome_iff_exists.mp hr
    unfold pushDep
    rw [he, hr']
    simp [depsOf, assocLook_set_self, hr', he]
  simp only [track, h]
  exact key _ rfl

theorem removeSub_proj (s : State) (p : ObjId × Key) (u : EffectId) :
    (removeSub s p u).effects = s.effects ∧ (removeSub s p u).data = s.data
    ∧ (removeSub s p u).comps = s.comps ∧ (removeSub s p u).effectStack = s.effectStack
    ∧ (removeSub s p u).activeEffect = s.activeEffect ∧ (removeSub s p u).nextEff = s.nextEff := by
  simp [removeSub]

theorem subsOf_removeSub (s : State) (po : ObjId) (pk : Key) (u : EffectId) (o : ObjId) (k : Key) :
    subsOf (removeSub s (po, pk) u) o k
      = if (o, k) = (po, pk) then (subsOf s po pk).erase u else subsOf s o k := by
  by_cases hp : (o, k) = (po, pk)
  · rw [if_pos hp]
    obtain ⟨ho, hk⟩ := Prod.mk.inj hp
    subst ho; subst hk
    simp [removeSub, subsOf, assocLook_set_self]
  · rw [if_neg hp]
    simp [removeSub, subsOf, assocLook_set_other _ _ _ _ hp]

theorem foldRemove_proj (u : EffectId) : ∀ (L : List (ObjId × Key)) (s : State),
    (L.foldl (fun st p => removeSub st p u) s).effects = s.effects
    ∧ (L.foldl (fun st p => removeSub st p u) s).data = s.data
    ∧ (L.foldl (fun st p => removeSub st p u) s).comps = s.comps
    ∧ (L.foldl (fun st p => removeSub st p u) s).effectStack = s.effectStack
    ∧ (L.foldl (fun st p => removeSub st p u) s).activeEffect = s.activeEffect
    ∧ (L.foldl (fun st p => removeSub st p u) s).nextEff = s.nextEff := by
  intro L
  induction L with
  | nil => intro s; exact ⟨rfl, rfl, rfl, rfl, rfl, rfl⟩
  | cons p t ih =>
    intro s
    simp only [List.foldl_cons]
    obtain ⟨h1, h2, h3, h4, h5, h6⟩ := ih (removeSub s p u)
    obtain ⟨g1, g2, g3, g4, g5, g6⟩ := removeSub_proj s p u
    exact ⟨h1.trans g1, h2.trans g2, h3.trans g3, h4.trans g4, h5.trans g5, h6.trans g6⟩

theorem mem_subs_foldRemove_other (u v : EffectId) (hv : v ≠ u) :
    ∀ (L : List (ObjId × Key)) (s : State) (o : ObjId) (k : Key),
      (v ∈ subsOf (L.foldl (fun st p => removeSub st p u) s) o k ↔ v ∈ subsOf s o k) := by
  intro L
  induction L with
  | nil => intro s o k; exact Iff.rfl
  | cons p t ih =>
    intro s o k
    obtain ⟨po, pk⟩ := p
    simp only [List.foldl_cons]
    rw [ih (removeSub s (po, pk) u) o k, subsOf_removeSub]
    by_cases hp : (o, k) = (po, pk)
    · rw [if_pos hp]
      obtain ⟨ho, hk⟩ := Prod.mk.inj hp
      subst ho; subst hk
      exact List.mem_erase_of_ne hv
    · rw [if_neg hp]

theorem nodup_subs_removeSub (u : EffectId) (s : State) (po : ObjId) (pk : Key)
    (hn : ∀ o k, (subsOf s o k).Nodup) :
    ∀ o k, (subsOf (removeSub s (po, pk) u) o k).Nodup := by
  intro o k
  rw [subsOf_removeSub]
  by_cases hp : (o, k) = (po, pk)
  · rw [if_pos hp]; exact (hn po pk).erase u
  · rw [if_neg hp]; exact hn o k

theorem nodup_subs_foldRemove (u : EffectId) :
    ∀ (L : List (ObjId × Key)) (s : State), (∀ o k, (subsOf s o k).Nodup) →
      ∀ o k, (subsOf (L.foldl (fun st p => removeSub st p u) s) o k).Nodup := by
  intro L
  induction L with
  | nil => intro s h; exact h
  | cons p t ih =>
    intro s h
    obtain ⟨po, pk⟩ := p
    simp only [List.foldl_cons]
    exact ih _ (nodup_subs_removeSub u s po pk h)

theorem mem_subs_foldRemove_self (u : EffectId) :
    ∀ (L : List (ObjId × Key)) (s : State), (∀ o k, (subsOf s o k).Nodup) →
      ∀ o k, (u ∈ subsOf (L.foldl (fun st p => removeSub st p u) s) o k
        ↔ u ∈ subsOf s o k ∧ (o, k) ∉ L) := by
  intro L
  induction L with
  | nil => intro s hn o k; simp
  | cons p t ih =>
    intro s hn o k
    obtain ⟨po, pk⟩ := p
    simp only [List.foldl_cons]
    rw [ih (removeSub s (po, pk) u) (nodup_subs_removeSub u s po pk hn) o k, subsOf_removeSub]
    by_cases hp : (o, k) = (po, pk)
    · rw [if_pos hp]
      obtain ⟨ho, hk⟩ := Prod.mk.inj hp
      subst ho; subst hk
      constructor
      · rintro ⟨hmem, -⟩
        rw [(hn o k).mem_erase_iff] at hmem
        exact absurd rfl hmem.1
      · rintro ⟨-, hno⟩
        exact absurd (List.mem_cons_self _ _) hno
    · rw [if_neg hp]
      simp only [List.mem_cons]
      constructor
      · rintro ⟨hm, hnt⟩
        refine ⟨hm, ?_⟩
        rintro (hc | hc)
        · exact hp hc
        · exact hnt hc
      · rintro ⟨hm, hno⟩
        exact ⟨hm, fun hc => hno (Or.inr hc)⟩

theorem subsOf_setDeps (s : State) (u : EffectId) (d : List (ObjId × Key)) (o : ObjId) (k : Key) :
    subsOf (setDeps s u d) o k = subsOf s o k := by
  simp [subsOf, (setDeps_proj s u d).1]

theorem cleanup_proj (s : State) (u : EffectId) :
    (cleanup s u).data = s.data ∧ (cleanup s u).comps = s.comps
    ∧ (cleanup s u).effectStack = s.effectStack
    ∧ (cleanup s u).activeEffect = s.activeEffect ∧ (cleanup s u).nextEff = s.nextEff := by
  unfold cleanup
  obtain ⟨-, f2, f3, f4, f5, f6⟩ := foldRemove_proj u (depsOf s u) s
  obtain ⟨-, g2, g3, g4, g5, g6⟩ :=
    setDeps_proj ((depsOf s u).foldl (fun st p => removeSub st p u) s) u []
  exact ⟨g2.trans f2, g3.trans f3, g4.trans f4, g5.trans f5, g6.trans f6⟩

theorem mem_subs_cleanup_other (s : State) (u v : EffectId) (hv : v ≠ u) (o : ObjId) (k : Key) :
    v ∈ subsOf (cleanup s u) o k ↔ v ∈ subsOf s o k := by
  unfold cleanup
  rw [subsOf_setDeps]
  exact mem_subs_foldRemove_other u v hv _ s o k

theorem mem_subs_cleanup_self (s : State) (u : EffectId)
    (hn : ∀ o k, (subsOf s o k).Nodup)
    (hb : ∀ o k, u ∈ subsOf s o k → (o, k) ∈ depsOf s u) (o : ObjId) (k : Key) :
    u ∉ subsOf (cleanup s u) o k := by
  unfold cleanup
  rw [subsOf_setDeps, mem_subs_foldRemove_self u _ s hn o k]
  rintro ⟨hm, hno⟩
  exact hno (hb o k hm)

theorem nodup_subs_cleanup (s : State) (u : EffectId) (hn : ∀ o k, (subsOf s o k).Nodup) :
    ∀ o k, (subsOf (cleanup s u) o k).Nodup := by
  intro o k
  unfold cleanup
  rw [subsOf_setDeps]
  exact nodup_subs_foldRemove u _ s hn o k

theorem depsOf_cleanup_other (s : State) (u w : EffectId) (hw : w ≠ u) :
    depsOf (cleanup s u) w = depsOf s w := by
  unfold cleanup
  generalize hF : (depsOf s u).foldl (fun st p => removeSub st p u) s = F
  have hf : F.effects = s.effects := by
    rw [← hF]; exact (foldRemove_proj u (depsOf s u) s).1
  unfold setDeps
  cases hr : assocLook F.effects u with
  | none => simp [depsOf, hf]
  | some r => simp [depsOf, assocLook_set_other _ _ _ _ hw, hf]

theorem depsOf_cleanup_self (s : State) (u : EffectId) :
    depsOf (cleanup s u) u = [] := by
  unfold cleanup
  generalize hF : (depsOf s u).foldl (fun st p => removeSub st p u) s = F
  unfold setDeps
  cases hr : assocLook F.effects u with
  | none => simp [depsOf, hr]
  | some r => simp [depsOf, assocLook_set_self]

theorem effectsLook_cleanup_isSome (s : State) (u w : EffectId) :
    (assocLook (cleanup s u).effects w).isSome = (assocLook s.effects w).isSome := by
  unfold cleanup setDeps
  have hf := (foldRemove_proj u (depsOf s u) s).1
  cases hr : assocLook ((depsOf s u).foldl (fun st p => removeSub st p u) s).effects u with
  | none => simp [hf]
  | some r =>
    by_cases hw : w = u
    · subst hw
      rw [hf] at hr
      simp [assocLook_set_self, hr]
    · simp [assocLook_set_other _ _ _ _ hw, hf]

theorem effectsLook_track_isSome (s : State) (o : ObjId) (k : Key) (w : EffectId) :
    (assocLook (track s o k).1.effects w).isSome = (assocLook s.effects w).isSome := by
  cases h : s.activeEffect with
  | none => simp [track, h]
  | some u =>
    simp only [track, h]
    unfold pushDep
    cases hr : assocLook s.effects u with
    | none => simp
    | some r =>
      by_cases hw : w = u
      · subst hw
        simp [assocLook_set_self, hr]
      · simp [assocLook_set_other _ _ _ _ hw]

theorem dataOf_track (s : State) (o : ObjId) (k : Key) (o' : ObjId) (k' : Key) :
    dataOf (track s o k).1 o' k' = dataOf s o' k' := by
  simp [dataOf, (track_proj s o k).2.2.1]

theorem dataOf_cleanup (s : State) (u : EffectId) (o : ObjId) (k : Key) :
    dataOf (cleanup s u) o k = dataOf s o k := by
  simp [dataOf, (cleanup_proj s u).1]

theorem subsOf_setComp (s : State) (c : CompId) (v : Option Int) (d : Bool) (o : ObjId) (k : Key) :
    subsOf (setComp s c v d) o k = subsOf s o k := by
  simp [subsOf, (setComp_proj s c v d).1]

theorem depsOf_setComp (s : State) (c : CompId) (v : Option Int) (d : Bool) (u : EffectId) :
    depsOf (setComp s c v d) u = depsOf s u := by
  simp [depsOf, (setComp_proj s c v d).2.2.1]

theorem dataOf_setComp (s : State) (c : CompId) (v : Option Int) (d : Bool) (o : ObjId) (k : Key) :
    dataOf (setComp s c v d) o k = dataOf s o k := by
  simp [dataOf, (setComp_proj s c v d).2.1]

theorem dataOf_setData_self (s : State) (o : ObjId) (k : Key) (v : Int) :
    dataOf (setData s o k v) o k = v := by
  simp [dataOf, setData, assocLook_set_self]

theorem dataOf_setData_other (s : State) (o : ObjId) (k : Key) (v : Int) (o' : ObjId) (k' : Key)
    (h : (o', k') ≠ (o, k)) : dataOf (setData s o k v) o' k' = dataOf s o' k' := by
  simp [dataOf, setData, assocLook_set_other _ _ _ _ h]

theorem SysInv.activeLive {s : State} (hs : SysInv s) {u : EffectId} (h : s.activeEffect = some u) :
    (assocLook s.effects u).isSome :=
  hs.stackLive u (List.mem_of_mem_getLast? (show s.effectStack.getLast? = some u by
    rw [← hs.activeTop, h]))

theorem stackLive_transfer {s t : State} (hst : t.effectStack = s.effectStack)
    (hl : ∀ w, (assocLook t.effects w).isSome = (assocLook s.effects w).isSome)
    (hs : ∀ u ∈ s.effectStack, (assocLook s.effects u).isSome) :
    ∀ u ∈ t.effectStack, (assocLook t.effects u).isSome := by
  intro u hu
  rw [hl u]
  exact hs u (hst ▸ hu)

theorem liveFresh_transfer {s t : State} (hn : t.nextEff = s.nextEff)
    (hl : ∀ w, (assocLook t.effects w).isSome = (assocLook s.effects w).isSome)
    (hs : ∀ u, s.nextEff ≤ u → assocLook s.effects u = none) :
    ∀ u, t.nextEff ≤ u → assocLook t.effects u = none := by
  intro u hu
  have h0 := hl u
  rw [hs u (hn ▸ hu)] at h0
  cases ho : assocLook t.effects u with
  | none => rfl
  | some r => rw [ho] at h0; simp at h0

theorem SysInv.track_pres {s : State} (hs : SysInv s) (o : ObjId) (k : Key) :
    SysInv (track s o k).1 := by
  cases ha : s.activeEffect with
  | none => rw [track_tr_none s o k ha]; exact hs
  | some u =>
    have hrec : (assocLook s.effects u).isSome := hs.activeLive ha
    constructor
    · intro v o' k'
      rw [mem_subs_track, ha]
      by_cases hv : v = u
      · subst hv
        rw [depsOf_track_self s o k v ha hrec, List.mem_append, List.mem_singleton]
        constructor
        · rintro (hm | ⟨hp, -⟩)
          · exact Or.inl ((hs.bidir v o' k').mp hm)
          · exact Or.inr hp
        · rintro (hd | hp)
          · exact Or.inl ((hs.bidir v o' k').mpr hd)
          · exact Or.inr ⟨hp, rfl⟩
      · rw [depsOf_track_other s o k v
          (by rw [ha]; intro hc; exact hv (Option.some.inj hc).symm)]
        constructor
        · rintro (hm | ⟨-, hc⟩)
          · exact (hs.bidir v o' k').mp hm
          · exact absurd (Option.some.inj hc).symm hv
        · intro hd
          exact Or.inl ((hs.bidir v o' k').mpr hd)
    · intro o' k'
      rw [subsOf_track_eq s o k u ha]
      by_cases hp : (o', k') = (o, k)
      · rw [if_pos hp]
        by_cases hu : u ∈ subsOf s o k
        · rw [if_pos hu]; exact hs.nodupS o k
        · rw [if_neg hu]
          simp [List.nodup_append, hs.nodupS o k, hu]
      · rw [if_neg hp]; exact hs.nodupS o' k'
    · rw [(track_proj s o k).2.1, (track_proj s o k).1]; exact hs.activeTop
    · exact stackLive_transfer (track_proj s o k).1 (effectsLook_track_isSome s o k) hs.stackLive
    · exact liveFresh_transfer (track_proj s o k).2.2.2.2 (effectsLook_track_isSome s o k)
        hs.liveFresh

theorem SysInv.cleanup_pres {s : State} (hs : SysInv s) (u : EffectId) : SysInv (cleanup s u) := by
  constructor
  · intro v o k
    by_cases hv : v = u
    · subst hv
      rw [depsOf_cleanup_self]
      constructor
      · intro hm
        exact absurd hm (mem_subs_cleanup_self s v hs.nodupS
          (fun o' k' h => (hs.bidir v o' k').mp h) o k)
      · intro hd
        exact absurd hd (List.not_mem_nil _)
    · rw [mem_subs_cleanup_other s u v hv, depsOf_cleanup_other s u v hv]
      exact hs.bidir v o k
  · exact nodup_subs_cleanup s u hs.nodupS
  · rw [(cleanup_proj s u).2.2.2.1, (cleanup_proj s u).2.2.1]; exact hs.activeTop
  · exact stackLive_transfer (cleanup_proj s u).2.2.1 (effectsLook_cleanup_isSome s u) hs.stackLive
  · exact liveFresh_transfer (cleanup_proj s u).2.2.2.2 (effectsLook_cleanup_isSome s u)
      hs.liveFresh

theorem SysInv.setData_pres {s : State} (hs : SysInv s) (o : ObjId) (k : Key) (v : Int) :
    SysInv (setData s o k v) :=
  ⟨hs.bidir, hs.nodupS, hs.activeTop, hs.stackLive, hs.liveFresh⟩

theorem SysInv.setComp_pres {s : State} (hs : SysInv s) (c : CompId) (v : Option Int) (d : Bool) :
    SysInv (setComp s c v d) := by
  obtain ⟨h1, h2, h3, h4, h5, h6⟩ := setComp_proj s c v d
  constructor
  · intro u o k
    rw [subsOf_setComp, depsOf_setComp]
    exact hs.bidir u o k
  · intro o k
    rw [subsOf_setComp]
    exact hs.nodupS o k
  · rw [h5, h4]; exact hs.activeTop
  · intro u hu
    rw [h3]
    exact hs.stackLive u (by rwa [h4] at hu)
  · intro u hu
    rw [h3]
    exact hs.liveFresh u (by rwa [h6] at hu)

theorem SysInv.push_pres {s : State} (hs : SysInv s) {u : EffectId}
    (hu : (assocLook s.effects u).isSome) :
    SysInv { s with activeEffect := some u, effectStack := s.effectStack ++ [u] } := by
  constructor
  · exact hs.bidir
  · exact hs.nodupS
  · show some u = (s.effectStack ++ [u]).getLast?
    rw [List.getLast?_concat]
  · intro w hw
    simp only [List.mem_append, List.mem_singleton] at hw
    rcases hw with hw | hw
    · exact hs.stackLive w hw
    · subst hw; exact hu
  · exact hs.liveFresh

theorem SysInv.pop_pres {s : State} (hs : SysInv s) :
    SysInv { s with effectStack := s.effectStack.dropLast, activeEffect := s.effectStack.dropLast.getLast? } := by
  constructor
  · exact hs.bidir
  · exact hs.nodupS
  · rfl
  · intro w hw
    exact hs.stackLive w (List.dropLast_subset _ hw)
  · exact hs.liveFresh

theorem SysInv.create_pres {s : State} (hs : SysInv s) (b : Body) (opts : EffOptions) :
    SysInv { s with effects := assocSet s.effects s.nextEff ⟨b, [], opts⟩, nextEff := s.nextEff + 1 } := by
  have hfresh : assocLook s.effects s.nextEff = none := hs.liveFresh _ (le_refl _)
  have hnew : ∀ w, depsOf ({ s with effects := assocSet s.effects s.nextEff ⟨b, [], opts⟩, nextEff := s.nextEff + 1 } : State) w = depsOf s w := by
    intro w
    by_cases hw : w = s.nextEff
    · subst hw
      simp [depsOf, assocLook_set_self, hfresh]
    · simp [depsOf, assocLook_set_other _ _ _ _ hw]
  constructor
  · intro v o k
    rw [hnew v]
    exact hs.bidir v o k
  · exact hs.nodupS
  · exact hs.activeTop
  · intro w hw
    by_cases hww : w = s.nextEff
    · subst hww
      simp [assocLook_set_self]
    · show (assocLook (assocSet s.effects s.nextEff ⟨b, [], opts⟩) w).isSome
      rw [assocLook_set_other _ _ _ _ hww]
      exact hs.stackLive w hw
  · intro w hw
    have hw' : s.nextEff + 1 ≤ w := hw
    have hww : w ≠ s.nextEff := by omega
    show assocLook (assocSet s.effects s.nextEff ⟨b, [], opts⟩) w = none
    rw [assocLook_set_other _ _ _ _ hww]
    exact hs.liveFresh w (by omega)

theorem subsOf_congr {s t : State} (h : t.bucket = s.bucket) (o : ObjId) (k : Key) :
    subsOf t o k = subsOf s o k := by
  simp [subsOf, h]

theorem depsOf_congr {s t : State} (h : t.effects = s.effects) (w : EffectId) :
    depsOf t w = depsOf s w := by
  simp [depsOf, h]

theorem depsOf_create (s : State) (hs : SysInv s) (b : Body) (opts : EffOptions) (w : EffectId) :
    depsOf ({ s with effects := assocSet s.effects s.nextEff ⟨b, [], opts⟩, nextEff := s.nextEff + 1 } : State) w = depsOf s w := by
  have hfresh : assocLook s.effects s.nextEff = none := hs.liveFresh _ (le_refl _)
  by_cases hw : w = s.nextEff
  · subst hw
    simp [depsOf, assocLook_set_self, hfresh]
  · simp [depsOf, assocLook_set_other _ _ _ _ hw]

theorem MetaOK_id (s : State) (hs : SysInv s) (out : Except Err Int) :
    MetaOK s ⟨s, [], out⟩ := by
  refine ⟨hs, fun _ _ => ⟨rfl, rfl⟩, ?_⟩
  intro u hu o k
  constructor <;> simp

theorem MetaOK_out {s : State} {r : Res} (h : MetaOK s r) (out : Except Err Int)
    (hout : ∀ v, out = Except.ok v → ∃ w, r.out = Except.ok w) :
    MetaOK s ⟨r.st, r.tr, out⟩ := by
  refine ⟨h.1, ?_, h.2.2⟩
  intro v hv
  obtain ⟨w, hw⟩ := hout v hv
  exact h.2.1 w hw

theorem MetaOK_comp {s : State} {r1 r2 : Res} (h1 : MetaOK s r1) (h2 : MetaOK r1.st r2)
    (tr : List Event)
    (htrS : ∀ w, Event.runStart w ∈ r1.tr ∨ Event.runStart w ∈ r2.tr → Event.runStart w ∈ tr)
    (htrT : ∀ w o k, Event.track w o k ∈ tr
      ↔ Event.track w o k ∈ r1.tr ∨ Event.track w o k ∈ r2.tr)
    (out : Except Err Int)
    (hout : ∀ v, out = Except.ok v →
      (∃ v1, r1.out = Except.ok v1) ∧ (∃ v2, r2.out = Except.ok v2)) :
    MetaOK s ⟨r2.st, tr, out⟩ := by
  obtain ⟨i1, p1, m1⟩ := h1
  obtain ⟨i2, p2, m2⟩ := h2
  refine ⟨i2, ?_, ?_⟩
  · intro v hv
    obtain ⟨⟨v1, hv1⟩, ⟨v2, hv2⟩⟩ := hout v hv
    obtain ⟨e1, a1⟩ := p1 v1 hv1
    obtain ⟨e2, a2⟩ := p2 v2 hv2
    exact ⟨e2.trans e1, a2.trans a1⟩
  · intro u hu o k
    have hu1 : Event.runStart u ∉ r1.tr := fun h => hu (htrS u (Or.inl h))
    have hu2 : Event.runStart u ∉ r2.tr := fun h => hu (htrS u (Or.inr h))
    obtain ⟨ms1, md1⟩ := m1 u hu1 o k
    obtain ⟨ms2, md2⟩ := m2 u hu2 o k
    have ht := htrT u o k
    constructor
    · rw [ms2, ms1, ht, or_assoc]
    · rw [md2, md1, ht, or_assoc]

theorem MetaOK_setData (s : State) (hs : SysInv s) (o : ObjId) (k : Key) (v : Int) :
    MetaOK s ⟨setData s o k v, [], Except.ok 0⟩ := by
  refine ⟨hs.setData_pres o k v, fun _ _ => ⟨rfl, rfl⟩, ?_⟩
  intro u hu o' k'
  constructor
  · show u ∈ subsOf s o' k' ↔ _
    simp
  · show (o', k') ∈ depsOf s u ↔ _
    simp

theorem MetaOK_setComp (s : State) (hs : SysInv s) (c : CompId) (v : Option Int) (d : Bool) :
    MetaOK s ⟨setComp s c v d, [], Except.ok 0⟩ := by
  refine ⟨hs.setComp_pres c v d,
    fun _ _ => ⟨(setComp_proj s c v d).2.2.2.1, (setComp_proj s c v d).2.2.2.2.1⟩, ?_⟩
  intro u hu o' k'
  constructor
  · rw [subsOf_setComp]
    simp
  · rw [depsOf_setComp]
    simp

theorem MetaOK_create (s : State) (hs : SysInv s) (b : Body) (opts : EffOptions) :
    MetaOK s ⟨{ s with effects := assocSet s.effects s.nextEff ⟨b, [], opts⟩, nextEff := s.nextEff + 1 }, [], Except.ok 0⟩ := by
  refine ⟨hs.create_pres b opts, fun _ _ => ⟨rfl, rfl⟩, ?_⟩
  intro u hu o k
  constructor
  · show u ∈ subsOf s o k ↔ _
    simp
  · rw [depsOf_create s hs b opts]
    simp

theorem MetaOK_track (s : State) (hs : SysInv s) (o : ObjId) (k : Key)
    (tailEv : List Event) (htail : ∀ u o' k', Event.track u o' k' ∉ tailEv)
    (out : Except Err Int) :
    MetaOK s ⟨(track s o k).1, (track s o k).2 ++ tailEv, out⟩ := by
  have htr : ∀ w o2 k2, (Event.track w o2 k2 ∈ (track s o k).2 ++ tailEv)
      ↔ ((o2, k2) = (o, k) ∧ s.activeEffect = some w) := by
    intro w o2 k2
    rw [List.mem_append]
    cases ha : s.activeEffect with
    | none =>
      rw [track_tr_none s o k ha]
      simp [htail w o2 k2]
    | some x =>
      rw [track_tr_some s o k x ha]
      simp only [List.mem_singleton]
      constructor
      · rintro (he | he)
        · injection he with h1 h2 h3
          exact ⟨by rw [h2, h3], by rw [h1]⟩
        · exact absurd he (htail w o2 k2)
      · rintro ⟨hp, hw⟩
        obtain ⟨h2, h3⟩ := Prod.mk.inj hp
        exact Or.inl (by rw [h2, h3, Option.some.inj hw])
  refine ⟨hs.track_pres o k,
    fun v hv => ⟨(track_proj s o k).1, (track_proj s o k).2.1⟩, ?_⟩
  intro u hu o' k'
  constructor
  · rw [mem_subs_track, htr]
  · rw [htr]
    by_cases hau : s.activeEffect = some u
    · rw [depsOf_track_self s o k u hau (hs.activeLive hau), List.mem_append,
        List.mem_singleton]
      simp [hau]
    · rw [depsOf_track_other s o k u hau]
      simp [hau]

/-- Main induction over the interpreter: from an invariant-satisfying state,
every interpreter call preserves the invariants, restores the execution
context on normal return, and changes an un-restarted effect's subscriptions
exactly by its `track` events. -/
theorem execMeta : ∀ (fuel : Nat) (c : Call) (s : State), SysInv s →
    MetaOK s (exec fuel s c) := by
  intro fuel
  induction fuel with
  | zero =>
    intro c s hs
    exact MetaOK_id s hs _
  | succ n ih =>
    intro c s hs
    cases c with
    | body b =>
      cases b with
      | lit v => exact MetaOK_id s hs _
      | throwB => exact MetaOK_id s hs _
      | readF o k =>
        exact MetaOK_track s hs o k [Event.readEv o k (dataOf (track s o k).1 o k)]
          (by intro u o' k'; simp) _
      | writeF o k e =>
        have m1 := ih (.body e) s hs
        cases ho : (exec n s (.body e)).out with
        | error er =>
          have hred : exec (Nat.succ n) s (.body (.writeF o k e))
              = ⟨(exec n s (.body e)).st, (exec n s (.body e)).tr, .error er⟩ := by
            simp only [exec, ho]
          rw [hred]
          exact MetaOK_out m1 _ (fun v hv => Except.noConfusion hv)
        | ok v =>
          have m2 := MetaOK_setData (exec n s (.body e)).st m1.1 o k v
          have m12 := MetaOK_comp m1 m2 (exec n s (.body e)).tr
            (by intro w hw; rcases hw with h | h; exact h; simp at h)
            (by intro w o' k'; simp)
            (Except.ok v) (fun w hw => ⟨⟨v, ho⟩, ⟨0, rfl⟩⟩)
          have m3 := ih (.trig o k) (setData (exec n s (.body e)).st o k v)
            (m1.1.setData_pres o k v)
          cases ho2 : (exec n (setData (exec n s (.body e)).st o k v) (.trig o k)).out with
          | error er =>
            have hred : exec (Nat.succ n) s (.body (.writeF o k e))
                = ⟨(exec n (setData (exec n s (.body e)).st o k v) (.trig o k)).st,
                    (exec n s (.body e)).tr ++ [Event.writeEv o k v]
                      ++ (exec n (setData (exec n s (.body e)).st o k v) (.trig o k)).tr,
                    .error er⟩ := by
              simp only [exec, ho, ho2]
            rw [hred]
            refine MetaOK_comp m12 m3 _ ?_ ?_ _ (fun w hw => Except.noConfusion hw)
            · intro w hw
              rcases hw with h | h
              · exact List.mem_append.mpr (Or.inl (List.mem_append.mpr (Or.inl h)))
              · exact List.mem_append.mpr (Or.inr h)
            · intro w o' k'
              simp only [List.mem_append, List.mem_singleton]
              constructor
              · rintro ((h | h) | h)
                · exact Or.inl h
                · exact absurd h (by simp)
                · exact Or.inr h
              · rintro (h | h)
                · exact Or.inl (Or.inl h)
                · exact Or.inr h
          | ok v2 =>
            have hred : exec (Nat.succ n) s (.body (.writeF o k e))
                = ⟨(exec n (setData (exec n s (.body e)).st o k v) (.trig o k)).st,
                    (exec n s (.body e)).tr ++ [Event.writeEv o k v]
                      ++ (exec n (setData (exec n s (.body e)).st o k v) (.trig o k)).tr,
                    .ok v⟩ := by
              simp only [exec, ho, ho2]
            rw [hred]
            refine MetaOK_comp m12 m3 _ ?_ ?_ _ (fun w hw => ⟨⟨v, rfl⟩, ⟨v2, ho2⟩⟩)
            · intro w hw
              rcases hw with h | h
              · exact List.mem_append.mpr (Or.inl (List.mem_append.mpr (Or.inl h)))
              · exact List.mem_append.mpr (Or.inr h)
            · intro w o' k'
              simp only [List.mem_append, List.mem_singleton]
              constructor
              · rintro ((h | h) | h)
                · exact Or.inl h
                · exact absurd h (by simp)
                · exact Or.inr h
              · rintro (h | h)
                · exact Or.inl (Or.inl h)
                · exact Or.inr h
      | addB a b2 =>
        have m1 := ih (.body a) s hs
        cases ho : (exec n s (.body a)).out with
        | error er =>
          have hred : exec (Nat.succ n) s (.body (.addB a b2))
              = ⟨(exec n s (.body a)).st, (exec n s (.body a)).tr, .error er⟩ := by
            simp only [exec, ho]
          rw [hred]
          exact MetaOK_out m1 _ (fun v hv => Except.noConfusion hv)
        | ok v1 =>
          have m2 := ih (.body b2) (exec n s (.body a)).st m1.1
          cases ho2 : (exec n (exec n s (.body a)).st (.body b2)).out with
          | error er =>
            have hred : exec (Nat.succ n) s (.body (.addB a b2))
                = ⟨(exec n (exec n s (.body a)).st (.body b2)).st,
                    (exec n s (.body a)).tr ++ (exec n (exec n s (.body a)).st (.body b2)).tr,
                    .error er⟩ := by
              simp only [exec, ho, ho2]
            rw [hred]
            exact MetaOK_comp m1 m2 _ (fun w hw => List.mem_append.mpr hw)
              (fun w o' k' => List.mem_append) _ (fun v hv => Except.noConfusion hv)
          | ok v2 =>
            have hred : exec (Nat.succ n) s (.body (.addB a b2))
                = ⟨(exec n (exec n s (.body a)).st (.body b2)).st,
                    (exec n s (.body a)).tr ++ (exec n (exec n s (.body a)).st (.body b2)).tr,
                    .ok (v1 + v2)⟩ := by
              simp only [exec, ho, ho2]
            rw [hred]
            exact MetaOK_comp m1 m2 _ (fun w hw => List.mem_append.mpr hw)
              (fun w o' k' => List.mem_append) _ (fun v hv => ⟨⟨v1, ho⟩, ⟨v2, ho2⟩⟩)
      | seqB a b2 =>
        have m1 := ih (.body a) s hs
        cases ho : (exec n s (.body a)).out with
        | error er =>
          have hred : exec (Nat.succ n) s (.body (.seqB a b2))
              = ⟨(exec n s (.body a)).st, (exec n s (.body a)).tr, .error er⟩ := by
            simp only [exec, ho]
          rw [hred]
          exact MetaOK_out m1 _ (fun v hv => Except.noConfusion hv)
        | ok v1 =>
          have m2 := ih (.body b2) (exec n s (.body a)).st m1.1
          have hred : exec (Nat.succ n) s (.body (.seqB a b2))
              = ⟨(exec n (exec n s (.body a)).st (.body b2)).st,
                  (exec n s (.body a)).tr ++ (exec n (exec n s (.body a)).st (.body b2)).tr,
                  (exec n (exec n s (.body a)).st (.body b2)).out⟩ := by
            simp only [exec, ho]
          rw [hred]
          exact MetaOK_comp m1 m2 _ (fun w hw => List.mem_append.mpr hw)
            (fun w o' k' => List.mem_append) _ (fun v hv => ⟨⟨v1, ho⟩, ⟨v, hv⟩⟩)
      | iteB cnd tb eb =>
        have m1 := ih (.body cnd) s hs
        cases ho : (exec n s (.body cnd)).out with
        | error er =>
          have hred : exec (Nat.succ n) s (.body (.iteB cnd tb eb))
              = ⟨(exec n s (.body cnd)).st, (exec n s (.body cnd)).tr, .error er⟩ := by
            simp only [exec, ho]
          rw [hred]
          exact MetaOK_out m1 _ (fun v hv => Except.noConfusion hv)
        | ok v1 =>
          have m2 := ih (.body (if v1 = 0 then eb else tb)) (exec n s (.body cnd)).st m1.1
          have hred : exec (Nat.succ n) s (.body (.iteB cnd tb eb))
              = ⟨(exec n (exec n s (.body cnd)).st (.body (if v1 = 0 then eb else tb))).st,
                  (exec n s (.body cnd)).tr
                    ++ (exec n (exec n s (.body cnd)).st (.body (if v1 = 0 then eb else tb))).tr,
                  (exec n (exec n s (.body cnd)).st (.body (if v1 = 0 then eb else tb))).out⟩ := by
            simp only [exec, ho]
          rw [hred]
          exact MetaOK_comp m1 m2 _ (fun w hw => List.mem_append.mpr hw)
            (fun w o' k' => List.mem_append) _ (fun v hv => ⟨⟨v1, ho⟩, ⟨v, hv⟩⟩)
      | effectCall b2 =>
        have mc := MetaOK_create s hs b2 ⟨false, .noSched⟩
        have hs1 : SysInv ({ s with effects := assocSet s.effects s.nextEff ⟨b2, [], ⟨false, Sched.noSched⟩⟩, nextEff := s.nextEff + 1 } : State) :=
          hs.create_pres b2 ⟨false, .noSched⟩
        have m2 := ih (.runE s.nextEff) _ hs1
        cases ho : (exec n ({ s with effects := assocSet s.effects s.nextEff ⟨b2, [], ⟨false, Sched.noSched⟩⟩, nextEff := s.nextEff + 1 } : State) (.runE s.nextEff)).out with
        | error er =>
          have hred : exec (Nat.succ n) s (.body (.effectCall b2))
              = ⟨(exec n ({ s with effects := assocSet s.effects s.nextEff ⟨b2, [], ⟨false, Sched.noSched⟩⟩, nextEff := s.nextEff + 1 } : State) (.runE s.nextEff)).st,
                  (exec n ({ s with effects := assocSet s.effects s.nextEff ⟨b2, [], ⟨false, Sched.noSched⟩⟩, nextEff := s.nextEff + 1 } : State) (.runE s.nextEff)).tr,
                  .error er⟩ := by
            simp only [exec, ho]
          rw [hred]
          exact MetaOK_comp mc m2 _
            (by intro w hw; rcases hw with h | h; simp at h; exact h)
            (by intro w o' k'; simp)
            _ (fun v hv => Except.noConfusion hv)
        | ok v =>
          have hred : exec (Nat.succ n) s (.body (.effectCall b2))
              = ⟨(exec n ({ s with effects := assocSet s.effects s.nextEff ⟨b2, [], ⟨false, Sched.noSched⟩⟩, nextEff := s.nextEff + 1 } : State) (.runE s.nextEff)).st,
                  (exec n ({ s with effects := assocSet s.effects s.nextEff ⟨b2, [], ⟨false, Sched.noSched⟩⟩, nextEff := s.nextEff + 1 } : State) (.runE s.nextEff)).tr,
                  .ok (Int.ofNat s.nextEff)⟩ := by
            simp only [exec, ho]
          rw [hred]
          exact MetaOK_comp mc m2 _
            (by intro w hw; rcases hw with h | h; simp at h; exact h)
            (by intro w o' k'; simp)
            _ (fun w hw => ⟨⟨0, rfl⟩, ⟨v, ho⟩⟩)
      | readComp cid =>
        cases hc : assocLook s.comps cid with
        | none =>
          have hred : exec (Nat.succ n) s (.body (.readComp cid)) = ⟨s, [], .error .badRef⟩ := by
            simp only [exec, hc]
          rw [hred]
          exact MetaOK_id s hs _
        | some cr =>
          cases hd : cr.dirty with
          | false =>
            have m := MetaOK_track s hs cr.obj "value" [] (by intro u o' k'; simp)
              (Except.ok (cr.value.getD 0))
            rw [List.append_nil] at m
            have hred : exec (Nat.succ n) s (.body (.readComp cid))
                = ⟨(track s cr.obj "value").1, (track s cr.obj "value").2,
                    .ok (cr.value.getD 0)⟩ := by
              simp only [exec, hc, hd]
              rfl
            rw [hred]
            exact m
          | true =>
            have m1 := ih (.runE cr.eff) s hs
            cases ho : (exec n s (.runE cr.eff)).out with
            | error er =>
              have hred : exec (Nat.succ n) s (.body (.readComp cid))
                  = ⟨(exec n s (.runE cr.eff)).st, (exec n s (.runE cr.eff)).tr, .error er⟩ := by
                simp only [exec, hc, hd, ho]
                rfl
              rw [hred]
              exact MetaOK_out m1 _ (fun v hv => Except.noConfusion hv)
            | ok v =>
              have m2 := MetaOK_setComp (exec n s (.runE cr.eff)).st m1.1 cid (some v) false
              have m12 := MetaOK_comp m1 m2 (exec n s (.runE cr.eff)).tr
                (by intro w hw; rcases hw with h | h; exact h; simp at h)
                (by intro w o' k'; simp)
                (Except.ok v) (fun w hw => ⟨⟨v, ho⟩, ⟨0, rfl⟩⟩)
              have m3 := MetaOK_track (setComp (exec n s (.runE cr.eff)).st cid (some v) false)
                (m1.1.setComp_pres cid (some v) false) cr.obj "value" []
                (by intro u o' k'; simp) (Except.ok v)
              rw [List.append_nil] at m3
              have hred : exec (Nat.succ n) s (.body (.readComp cid))
                  = ⟨(track (setComp (exec n s (.runE cr.eff)).st cid (some v) false) cr.obj "value").1,
                      (exec n s (.runE cr.eff)).tr
                        ++ (track (setComp (exec n s (.runE cr.eff)).st cid (some v) false) cr.obj "value").2,
                      .ok v⟩ := by
                simp only [exec, hc, hd, ho]
                rfl
              rw [hred]
              exact MetaOK_comp m12 m3 _ (fun w hw => List.mem_append.mpr hw)
                (fun w o' k' => List.mem_append) _ (fun w hw => ⟨⟨v, rfl⟩, ⟨v, rfl⟩⟩)
    | trig o k =>
      have hred : exec (Nat.succ n) s (.trig o k) = exec n s (.allE (effectsToRun s o k)) := by
        simp only [exec]
      rw [hred]
      exact ih _ s hs
    | allE l =>
      cases l with
      | nil => exact MetaOK_id s hs _
      | cons u rest =>
        have m1 := ih (.invoke u) s hs
        cases ho : (exec n s (.invoke u)).out with
        | error er =>
          have hred : exec (Nat.succ n) s (.allE (u :: rest))
              = ⟨(exec n s (.invoke u)).st, (exec n s (.invoke u)).tr, .error er⟩ := by
            simp only [exec, ho]
          rw [hred]
          exact MetaOK_out m1 _ (fun v hv => Except.noConfusion hv)
        | ok v1 =>
          have m2 := ih (.allE rest) (exec n s (.invoke u)).st m1.1
          have hred : exec (Nat.succ n) s (.allE (u :: rest))
              = ⟨(exec n (exec n s (.invoke u)).st (.allE rest)).st,
                  (exec n s (.invoke u)).tr ++ (exec n (exec n s (.invoke u)).st (.allE rest)).tr,
                  (exec n (exec n s (.invoke u)).st (.allE rest)).out⟩ := by
            simp only [exec, ho]
          rw [hred]
          exact MetaOK_comp m1 m2 _ (fun w hw => List.mem_append.mpr hw)
            (fun w o' k' => List.mem_append) _ (fun v hv => ⟨⟨v1, ho⟩, ⟨v, hv⟩⟩)
    | invoke u =>
      cases hr : assocLook s.effects u with
      | none =>
        have hred : exec (Nat.succ n) s (.invoke u) = ⟨s, [], .error .badRef⟩ := by
          simp only [exec, hr]
        rw [hred]
        exact MetaOK_id s hs _
      | some r =>
        cases hsch : r.options.scheduler with
        | noSched =>
          have hred : exec (Nat.succ n) s (.invoke u) = exec n s (.runE u) := by
            simp only [exec, hr, hsch]
          rw [hred]
          exact ih _ s hs
        | computedSched cid =>
          cases hc : assocLook s.comps cid with
          | none =>
            have hred : exec (Nat.succ n) s (.invoke u) = ⟨s, [], .error .badRef⟩ := by
              simp only [exec, hr, hsch, hc]
            rw [hred]
            exact MetaOK_id s hs _
          | some cr =>
            cases hd : cr.dirty with
            | true =>
              have hred : exec (Nat.succ n) s (.invoke u) = ⟨s, [], .ok 0⟩ := by
                simp only [exec, hr, hsch, hc, hd]
                rfl
              rw [hred]
              exact MetaOK_id s hs _
            | false =>
              have msc := MetaOK_setComp s hs cid cr.value true
              have m2 := ih (.trig cr.obj "value") (setComp s cid cr.value true)
                (hs.setComp_pres cid cr.value true)
              have hred : exec (Nat.succ n) s (.invoke u)
                  = exec n (setComp s cid cr.value true) (.trig cr.obj "value") := by
                simp only [exec, hr, hsch, hc, hd]
                rfl
              rw [hred]
              have mall := MetaOK_comp msc m2
                (exec n (setComp s cid cr.value true) (.trig cr.obj "value")).tr
                (by intro w hw; rcases hw with h | h; simp at h; exact h)
                (by intro w o' k'; simp)
                (exec n (setComp s cid cr.value true) (.trig cr.obj "value")).out
                (fun v hv => ⟨⟨0, rfl⟩, ⟨v, hv⟩⟩)
              exact mall
    | runE u =>
      cases hr : assocLook s.effects u with
      | none =>
        have hred : exec (Nat.succ n) s (.runE u) = ⟨s, [], .error .badRef⟩ := by
          simp only [exec, hr]
        rw [hred]
        exact MetaOK_id s hs _
      | some r =>
        have hs1 : SysInv (cleanup s u) := hs.cleanup_pres u
        have hlook1 : (assocLook (cleanup s u).effects u).isSome := by
          rw [effectsLook_cleanup_isSome, hr]
          rfl
        have hs2 : SysInv ({ cleanup s u with activeEffect := some u, effectStack := (cleanup s u).effectStack ++ [u] } : State) :=
          hs1.push_pres hlook1
        have m := ih (.body r.body) _ hs2
        cases hb : (exec n ({ cleanup s u with activeEffect := some u, effectStack := (cleanup s u).effectStack ++ [u] } : State) (.body r.body)).out with
        | error er =>
          have hred : exec (Nat.succ n) s (.runE u)
              = ⟨(exec n ({ cleanup s u with activeEffect := some u, effectStack := (cleanup s u).effectStack ++ [u] } : State) (.body r.body)).st,
                  Event.runStart u :: (exec n ({ cleanup s u with activeEffect := some u, effectStack := (cleanup s u).effectStack ++ [u] } : State) (.body r.body)).tr,
                  .error er⟩ := by
            simp only [exec, hr, hb]
          rw [hred]
          refine ⟨m.1, fun v hv => Except.noConfusion hv, ?_⟩
          intro w hw o k
          have hwu : w ≠ u := by
            intro he
            subst he
            exact hw (List.mem_cons_self _ _)
          have hw2 : Event.runStart w
              ∉ (exec n ({ cleanup s u with activeEffect := some u, effectStack := (cleanup s u).effectStack ++ [u] } : State) (.body r.body)).tr :=
            fun h => hw (List.mem_cons_of_mem _ h)
          obtain ⟨ms, md⟩ := m.2.2 w hw2 o k
          have hcs : w ∈ subsOf (cleanup s u) o k ↔ w ∈ subsOf s o k :=
            mem_subs_cleanup_other s u w hwu o k
          have hcd : (o, k) ∈ depsOf (cleanup s u) w ↔ (o, k) ∈ depsOf s w := by
            rw [depsOf_cleanup_other s u w hwu]
          have htrc : Event.track w o k
              ∈ Event.runStart u :: (exec n ({ cleanup s u with activeEffect := some u, effectStack := (cleanup s u).effectStack ++ [u] } : State) (.body r.body)).tr
              ↔ Event.track w o k
              ∈ (exec n ({ cleanup s u with activeEffect := some u, effectStack := (cleanup s u).effectStack ++ [u] } : State) (.body r.body)).tr := by
            simp
          constructor
          · exact (ms.trans (or_congr hcs Iff.rfl)).trans (or_congr Iff.rfl htrc.symm)
          · exact (md.trans (or_congr hcd Iff.rfl)).trans (or_congr Iff.rfl htrc.symm)
        | ok v =>
          have hred : exec (Nat.succ n) s (.runE u)
              = ⟨{ (exec n ({ cleanup s u with activeEffect := some u, effectStack := (cleanup s u).effectStack ++ [u] } : State) (.body r.body)).st with
                    effectStack := (exec n ({ cleanup s u with activeEffect := some u, effectStack := (cleanup s u).effectStack ++ [u] } : State) (.body r.body)).st.effectStack.dropLast,
                    activeEffect := (exec n ({ cleanup s u with activeEffect := some u, effectStack := (cleanup s u).effectStack ++ [u] } : State) (.body r.body)).st.effectStack.dropLast.getLast? },
                  Event.runStart u :: ((exec n ({ cleanup s u with activeEffect := some u, effectStack := (cleanup s u).effectStack ++ [u] } : State) (.body r.body)).tr ++ [Event.runEnd u]),
                  .ok v⟩ := by
            simp only [exec, hr, hb]
          rw [hred]
          have hrestore := m.2.1 v hb
          refine ⟨m.1.pop_pres, ?_, ?_⟩
          · intro v' hv'
            constructor
            · show (exec n ({ cleanup s u with activeEffect := some u, effectStack := (cleanup s u).effectStack ++ [u] } : State) (.body r.body)).st.effectStack.dropLast = s.effectStack
              rw [hrestore.1]
              show ((cleanup s u).effectStack ++ [u]).dropLast = s.effectStack
              rw [List.dropLast_concat, (cleanup_proj s u).2.2.1]
            · show (exec n ({ cleanup s u with activeEffect := some u, effectStack := (cleanup s u).effectStack ++ [u] } : State) (.body r.body)).st.effectStack.dropLast.getLast? = s.activeEffect
              rw [hrestore.1]
              show ((cleanup s u).effectStack ++ [u]).dropLast.getLast? = s.activeEffect
              rw [List.dropLast_concat, (cleanup_proj s u).2.2.1, hs.activeTop]
          · intro w hw o k
            have hwu : w ≠ u := by
              intro he
              subst he
              exact hw (List.mem_cons_self _ _)
            have hw2 : Event.runStart w
                ∉ (exec n ({ cleanup s u with activeEffect := some u, effectStack := (cleanup s u).effectStack ++ [u] } : State) (.body r.body)).tr := by
              intro h
              exact hw (List.mem_cons_of_mem _ (List.mem_append.mpr (Or.inl h)))
            obtain ⟨ms, md⟩ := m.2.2 w hw2 o k
            have hcs : w ∈ subsOf (cleanup s u) o k ↔ w ∈ subsOf s o k :=
              mem_subs_cleanup_other s u w hwu o k
            have hcd : (o, k) ∈ depsOf (cleanup s u) w ↔ (o, k) ∈ depsOf s w := by
              rw [depsOf_cleanup_other s u w hwu]
            have htrc : Event.track w o k
                ∈ Event.runStart u :: ((exec n ({ cleanup s u with activeEffect := some u, effectStack := (cleanup s u).effectStack ++ [u] } : State) (.body r.body)).tr ++ [Event.runEnd u])
                ↔ Event.track w o k
                ∈ (exec n ({ cleanup s u with activeEffect := some u, effectStack := (cleanup s u).effectStack ++ [u] } : State) (.body r.body)).tr := by
              simp
            constructor
            · exact (ms.trans (or_congr hcs Iff.rfl)).trans (or_congr Iff.rfl htrc.symm)
            · exact (md.trans (or_congr hcd Iff.rfl)).trans (or_congr Iff.rfl htrc.symm)

theorem DataOK_same {s : State} {o : ObjId} {k : Key} (st2 : State)
    (hst : dataOf st2 o k = dataOf s o k) (tr : List Event)
    (htr : ∀ x, Event.readEv o k x ∈ tr → x = dataOf s o k) (out : Except Err Int) :
    DataOK s o k ⟨st2, tr, out⟩ :=
  fun _ => ⟨hst, htr⟩

theorem DataOK_comp {s : State} {o : ObjId} {k : Key} {r1 r2 : Res}
    (h1 : DataOK s o k r1) (h2 : DataOK r1.st o k r2)
    (st2 : State) (hst : dataOf st2 o k = dataOf r2.st o k)
    (tr : List Event)
    (htrW : ∀ w, Event.writeEv o k w ∈ r1.tr ∨ Event.writeEv o k w ∈ r2.tr
      → Event.writeEv o k w ∈ tr)
    (htrR : ∀ x, Event.readEv o k x ∈ tr
      → Event.readEv o k x ∈ r1.tr ∨ Event.readEv o k x ∈ r2.tr)
    (out : Except Err Int) :
    DataOK s o k ⟨st2, tr, out⟩ := by
  intro hw
  have hw1 : ∀ w, Event.writeEv o k w ∉ r1.tr := fun w h => hw w (htrW w (Or.inl h))
  have hw2 : ∀ w, Event.writeEv o k w ∉ r2.tr := fun w h => hw w (htrW w (Or.inr h))
  obtain ⟨d1, rd1⟩ := h1 hw1
  obtain ⟨d2, rd2⟩ := h2 hw2
  refine ⟨(hst.trans d2).trans d1, ?_⟩
  intro x hx
  rcases htrR x hx with h | h
  · exact rd1 x h
  · exact (rd2 x h).trans d1

theorem dataOf_trackTr_none {s : State} {o' : ObjId} {k' : Key} {o : ObjId} {k : Key} {x : Int}
    (h : Event.readEv o k x ∈ (track s o' k').2) : False := by
  cases ha : s.activeEffect with
  | none => rw [track_tr_none s o' k' ha] at h; simp at h
  | some uu => rw [track_tr_some s o' k' uu ha] at h; simp at h

theorem dataOf_writeTr_none {s : State} {o' : ObjId} {k' : Key} {o : ObjId} {k : Key} {w : Int}
    (h : Event.writeEv o k w ∈ (track s o' k').2) : False := by
  cases ha : s.activeEffect with
  | none => rw [track_tr_none s o' k' ha] at h; simp at h
  | some uu => rw [track_tr_some s o' k' uu ha] at h; simp at h

/-- Data-observation induction over the interpreter. -/
theorem execData : ∀ (fuel : Nat) (c : Call) (s : State) (o : ObjId) (k : Key),
    DataOK s o k (exec fuel s c) := by
  intro fuel
  induction fuel with
  | zero =>
    intro c s o k
    exact DataOK_same s rfl [] (by simp) _
  | succ n ih =>
    intro c s o k
    cases c with
    | body b =>
      cases b with
      | lit v => exact DataOK_same s rfl [] (by simp) _
      | throwB => exact DataOK_same s rfl [] (by simp) _
      | readF o' k' =>
        refine DataOK_same (track s o' k').1 (dataOf_track s o' k' o k) _ ?_ _
        intro x hx
        rcases List.mem_append.mp hx with h | h
        · exact absurd h (fun hh => dataOf_trackTr_none hh)
        · rw [List.mem_singleton] at h
          injection h with h1 h2 h3
          subst h1
          subst h2
          rw [h3]
          apply dataOf_track
      | writeF o' k' e =>
        have m1 := ih (.body e) s o k
        cases ho : (exec n s (.body e)).out with
        | error er =>
          have hred : exec (Nat.succ n) s (.body (.writeF o' k' e))
              = ⟨(exec n s (.body e)).st, (exec n s (.body e)).tr, .error er⟩ := by
            simp only [exec, ho]
          rw [hred]
          intro hw
          exact m1 hw
        | ok v =>
          have m2 := ih (.trig o' k') (setData (exec n s (.body e)).st o' k' v) o k
          have hred : exec (Nat.succ n) s (.body (.writeF o' k' e))
              = ⟨(exec n (setData (exec n s (.body e)).st o' k' v) (.trig o' k')).st,
                  (exec n s (.body e)).tr ++ [Event.writeEv o' k' v]
                    ++ (exec n (setData (exec n s (.body e)).st o' k' v) (.trig o' k')).tr,
                  match (exec n (setData (exec n s (.body e)).st o' k' v) (.trig o' k')).out with
                  | .ok _ => .ok v
                  | .error er => .error er⟩ := by
            simp only [exec, ho]
          rw [hred]
          by_cases hok : (o, k) = (o', k')
          · obtain ⟨h1, h2⟩ := Prod.mk.inj hok
            subst h1
            subst h2
            intro hw
            exact absurd (List.mem_append.mpr (Or.inl (List.mem_append.mpr
              (Or.inr (List.mem_singleton.mpr rfl))))) (hw v)
          · have hmid : DataOK (exec n s (.body e)).st o k
                ⟨setData (exec n s (.body e)).st o' k' v, [], Except.ok 0⟩ :=
              DataOK_same _ (dataOf_setData_other _ _ _ _ _ _ hok) [] (by simp) _
            have m12 := DataOK_comp m1 hmid (setData (exec n s (.body e)).st o' k' v) rfl
              (exec n s (.body e)).tr
              (by intro w hw; rcases hw with h | h; exact h; simp at h)
              (by intro x hx; exact Or.inl hx) (Except.ok 0)
            refine DataOK_comp m12 m2 _ rfl _ ?_ ?_ _
            · intro w hw
              rcases hw with h | h
              · exact List.mem_append.mpr (Or.inl (List.mem_append.mpr (Or.inl h)))
              · exact List.mem_append.mpr (Or.inr h)
            · intro x hx
              rcases List.mem_append.mp hx with h | h
              · rcases List.mem_append.mp h with h1 | h1
                · exact Or.inl h1
                · rw [List.mem_singleton] at h1
                  exact absurd h1 (by simp)
              · exact Or.inr h
      | addB a b2 =>
        have m1 := ih (.body a) s o k
        cases ho : (exec n s (.body a)).out with
        | error er =>
          have hred : exec (Nat.succ n) s (.body (.addB a b2))
              = ⟨(exec n s (.body a)).st, (exec n s (.body a)).tr, .error er⟩ := by
            simp only [exec, ho]
          rw [hred]
          intro hw
          exact m1 hw
        | ok v1 =>
          have m2 := ih (.body b2) (exec n s (.body a)).st o k
          cases ho2 : (exec n (exec n s (.body a)).st (.body b2)).out with
          | error er =>
            have hred : exec (Nat.succ n) s (.body (.addB a b2))
                = ⟨(exec n (exec n s (.body a)).st (.body b2)).st,
                    (exec n s (.body a)).tr ++ (exec n (exec n s (.body a)).st (.body b2)).tr,
                    .error er⟩ := by
              simp only [exec, ho, ho2]
            rw [hred]
            exact DataOK_comp m1 m2 _ rfl _ (fun w hw => List.mem_append.mpr hw)
              (fun x hx => List.mem_append.mp hx) _
          | ok v2 =>
            have hred : exec (Nat.succ n) s (.body (.addB a b2))
                = ⟨(exec n (exec n s (.body a)).st (.body b2)).st,
                    (exec n s (.body a)).tr ++ (exec n (exec n s (.body a)).st (.body b2)).tr,
                    .ok (v1 + v2)⟩ := by
              simp only [exec, ho, ho2]
            rw [hred]
            exact DataOK_comp m1 m2 _ rfl _ (fun w hw => List.mem_append.mpr hw)
              (fun x hx => List.mem_append.mp hx) _
      | seqB a b2 =>
        have m1 := ih (.body a) s o k
        cases ho : (exec n s (.body a)).out with
        | error er =>
          have hred : exec (Nat.succ n) s (.body (.seqB a b2))
              = ⟨(exec n s (.body a)).st, (exec n s (.body a)).tr, .error er⟩ := by
            simp only [exec, ho]
          rw [hred]
          intro hw
          exact m1 hw
        | ok v1 =>
          have m2 := ih (.body b2) (exec n s (.body a)).st o k
          have hred : exec (Nat.succ n) s (.body (.seqB a b2))
              = ⟨(exec n (exec n s (.body a)).st (.body b2)).st,
                  (exec n s (.body a)).tr ++ (exec n (exec n s (.body a)).st (.body b2)).tr,
                  (exec n (exec n s (.body a)).st (.body b2)).out⟩ := by
            simp only [exec, ho]
          rw [hred]
          exact DataOK_comp m1 m2 _ rfl _ (fun w hw => List.mem_append.mpr hw)
            (fun x hx => List.mem_append.mp hx) _
      | iteB cnd tb eb =>
        have m1 := ih (.body cnd) s o k
        cases ho : (exec n s (.body cnd)).out with
        | error er =>
          have hred : exec (Nat.succ n) s (.body (.iteB cnd tb eb))
              = ⟨(exec n s (.body cnd)).st, (exec n s (.body cnd)).tr, .error er⟩ := by
            simp only [exec, ho]
          rw [hred]
          intro hw
          exact m1 hw
        | ok v1 =>
          have m2 := ih (.body (if v1 = 0 then eb else tb)) (exec n s (.body cnd)).st o k
          have hred : exec (Nat.succ n) s (.body (.iteB cnd tb eb))
              = ⟨(exec n (exec n s (.body cnd)).st (.body (if v1 = 0 then eb else tb))).st,
                  (exec n s (.body cnd)).tr
                    ++ (exec n (exec n s (.body cnd)).st (.body (if v1 = 0 then eb else tb))).tr,
                  (exec n (exec n s (.body cnd)).st (.body (if v1 = 0 then eb else tb))).out⟩ := by
            simp only [exec, ho]
          rw [hred]
          exact DataOK_comp m1 m2 _ rfl _ (fun w hw => List.mem_append.mpr hw)
            (fun x hx => List.mem_append.mp hx) _
      | effectCall b2 =>
        have hmid : DataOK s o k
            ⟨{ s with effects := assocSet s.effects s.nextEff ⟨b2, [], ⟨false, Sched.noSched⟩⟩, nextEff := s.nextEff + 1 }, [], Except.ok 0⟩ :=
          DataOK_same _ rfl [] (by simp) _
        have m2 := ih (.runE s.nextEff) ({ s with effects := assocSet s.effects s.nextEff ⟨b2, [], ⟨false, Sched.noSched⟩⟩, nextEff := s.nextEff + 1 } : State) o k
        cases ho : (exec n ({ s with effects := assocSet s.effects s.nextEff ⟨b2, [], ⟨false, Sched.noSched⟩⟩, nextEff := s.nextEff + 1 } : State) (.runE s.nextEff)).out with
        | error er =>
          have hred : exec (Nat.succ n) s (.body (.effectCall b2))
              = ⟨(exec n ({ s with effects := assocSet s.effects s.nextEff ⟨b2, [], ⟨false, Sched.noSched⟩⟩, nextEff := s.nextEff + 1 } : State) (.runE s.nextEff)).st,
                  (exec n ({ s with effects := assocSet s.effects s.nextEff ⟨b2, [], ⟨false, Sched.noSched⟩⟩, nextEff := s.nextEff + 1 } : State) (.runE s.nextEff)).tr,
                  .error er⟩ := by
            simp only [exec, ho]
          rw [hred]
          exact DataOK_comp hmid m2 _ rfl _
            (by intro w hw; rcases hw with h | h; simp at h; exact h)
            (by intro x hx; exact Or.inr hx) _
        | ok v =>
          have hred : exec (Nat.succ n) s (.body (.effectCall b2))
              = ⟨(exec n ({ s with effects := assocSet s.effects s.nextEff ⟨b2, [], ⟨false, Sched.noSched⟩⟩, nextEff := s.nextEff + 1 } : State) (.runE s.nextEff)).st,
                  (exec n ({ s with effects := assocSet s.effects s.nextEff ⟨b2, [], ⟨false, Sched.noSched⟩⟩, nextEff := s.nextEff + 1 } : State) (.runE s.nextEff)).tr,
                  .ok (Int.ofNat s.nextEff)⟩ := by
            simp only [exec, ho]
          rw [hred]
          exact DataOK_comp hmid m2 _ rfl _
            (by intro w hw; rcases hw with h | h; simp at h; exact h)
            (by intro x hx; exact Or.inr hx) _
      | readComp cid =>
        cases hc : assocLook s.comps cid with
        | none =>
          have hred : exec (Nat.succ n) s (.body (.readComp cid)) = ⟨s, [], .error .badRef⟩ := by
            simp only [exec, hc]
          rw [hred]
          exact DataOK_same s rfl [] (by simp) _
        | some cr =>
          cases hd : cr.dirty with
          | false =>
            have hred : exec (Nat.succ n) s (.body (.readComp cid))
                = ⟨(track s cr.obj "value").1, (track s cr.obj "value").2,
                    .ok (cr.value.getD 0)⟩ := by
              simp only [exec, hc, hd]
              rfl
            rw [hred]
            exact DataOK_same _ (dataOf_track s cr.obj "value" o k) _
              (fun x hx => absurd hx (fun hh => dataOf_trackTr_none hh)) _
          | true =>
            have m1 := ih (.runE cr.eff) s o k
            cases ho : (exec n s (.runE cr.eff)).out with
            | error er =>
              have hred : exec (Nat.succ n) s (.body (.readComp cid))
                  = ⟨(exec n s (.runE cr.eff)).st, (exec n s (.runE cr.eff)).tr, .error er⟩ := by
                simp only [exec, hc, hd, ho]
                rfl
              rw [hred]
              intro hw
              exact m1 hw
            | ok v =>
              have hmid : DataOK (exec n s (.runE cr.eff)).st o k
                  ⟨(track (setComp (exec n s (.runE cr.eff)).st cid (some v) false) cr.obj "value").1,
                    (track (setComp (exec n s (.runE cr.eff)).st cid (some v) false) cr.obj "value").2,
                    Except.ok v⟩ := by
                refine DataOK_same _ ?_ _ ?_ _
                · rw [dataOf_track, dataOf_setComp]
                · intro x hx
                  exact absurd hx (fun hh => dataOf_trackTr_none hh)
              have hred : exec (Nat.succ n) s (.body (.readComp cid))
                  = ⟨(track (setComp (exec n s (.runE cr.eff)).st cid (some v) false) cr.obj "value").1,
                      (exec n s (.runE cr.eff)).tr
                        ++ (track (setComp (exec n s (.runE cr.eff)).st cid (some v) false) cr.obj "value").2,
                      .ok v⟩ := by
                simp only [exec, hc, hd, ho]
                rfl
              rw [hred]
              exact DataOK_comp m1 hmid _ rfl _
                (by
                  intro w hw
                  rcases hw with h | h
                  · exact List.mem_append.mpr (Or.inl h)
                  · exact absurd h (fun hh => dataOf_writeTr_none hh))
                (fun x hx => List.mem_append.mp hx) _
    | trig o' k' =>
      have hred : exec (Nat.succ n) s (.trig o' k') = exec n s (.allE (effectsToRun s o' k')) := by
        simp only [exec]
      rw [hred]
      exact ih _ s o k
    | allE l =>
      cases l with
      | nil => exact DataOK_same s rfl [] (by simp) _
      | cons u rest =>
        have m1 := ih (.invoke u) s o k
        cases ho : (exec n s (.invoke u)).out with
        | error er =>
          have hred : exec (Nat.succ n) s (.allE (u :: rest))
              = ⟨(exec n s (.invoke u)).st, (exec n s (.invoke u)).tr, .error er⟩ := by
            simp only [exec, ho]
          rw [hred]
          intro hw
          exact m1 hw
        | ok v1 =>
          have m2 := ih (.allE rest) (exec n s (.invoke u)).st o k
          have hred : exec (Nat.succ n) s (.allE (u :: rest))
              = ⟨(exec n (exec n s (.invoke u)).st (.allE rest)).st,
                  (exec n s (.invoke u)).tr ++ (exec n (exec n s (.invoke u)).st (.allE rest)).tr,
                  (exec n (exec n s (.invoke u)).st (.allE rest)).out⟩ := by
            simp only [exec, ho]
          rw [hred]
          exact DataOK_comp m1 m2 _ rfl _ (fun w hw => List.mem_append.mpr hw)
            (fun x hx => List.mem_append.mp hx) _
    | invoke u =>
      cases hr : assocLook s.effects u with
      | none =>
        have hred : exec (Nat.succ n) s (.invoke u) = ⟨s, [], .error .badRef⟩ := by
          simp only [exec, hr]
        rw [hred]
        exact DataOK_same s rfl [] (by simp) _
      | some r =>
        cases hsch : r.options.scheduler with
        | noSched =>
          have hred : exec (Nat.succ n) s (.invoke u) = exec n s (.runE u) := by
            simp only [exec, hr, hsch]
          rw [hred]
          exact ih _ s o k
        | computedSched cid =>
          cases hc : assocLook s.comps cid with
          | none =>
            have hred : exec (Nat.succ n) s (.invoke u) = ⟨s, [], .error .badRef⟩ := by
              simp only [exec, hr, hsch, hc]
            rw [hred]
            exact DataOK_same s rfl [] (by simp) _
          | some cr =>
            cases hd : cr.dirty with
            | true =>
              have hred : exec (Nat.succ n) s (.invoke u) = ⟨s, [], .ok 0⟩ := by
                simp only [exec, hr, hsch, hc, hd]
                rfl
              rw [hred]
              exact DataOK_same s rfl [] (by simp) _
            | false =>
              have hmid : DataOK s o k ⟨setComp s cid cr.value true, [], Except.ok 0⟩ :=
                DataOK_same _ (dataOf_setComp s cid cr.value true o k) [] (by simp) _
              have m2 := ih (.trig cr.obj "value") (setComp s cid cr.value true) o k
              have hred : exec (Nat.succ n) s (.invoke u)
                  = exec n (setComp s cid cr.value true) (.trig cr.obj "value") := by
                simp only [exec, hr, hsch, hc, hd]
                rfl
              rw [hred]
              have := DataOK_comp hmid m2
                (exec n (setComp s cid cr.value true) (.trig cr.obj "value")).st rfl
                (exec n (setComp s cid cr.value true) (.trig cr.obj "value")).tr
                (by intro w hw; rcases hw with h | h; simp at h; exact h)
                (by intro x hx; exact Or.inr hx)
                (exec n (setComp s cid cr.value true) (.trig cr.obj "value")).out
              exact this
    | runE u =>
      cases hr : assocLook s.effects u with
      | none =>
        have hred : exec (Nat.succ n) s (.runE u) = ⟨s, [], .error .badRef⟩ := by
          simp only [exec, hr]
        rw [hred]
        exact DataOK_same s rfl [] (by simp) _
      | some r =>
        have hmid : DataOK s o k
            ⟨{ cleanup s u with activeEffect := some u, effectStack := (cleanup s u).effectStack ++ [u] }, [], Except.ok 0⟩ := by
          refine DataOK_same _ ?_ [] (by simp) _
          show dataOf (cleanup s u) o k = dataOf s o k
          exact dataOf_cleanup s u o k
        have m2 := ih (.body r.body) ({ cleanup s u with activeEffect := some u, effectStack := (cleanup s u).effectStack ++ [u] } : State) o k
        cases hb : (exec n ({ cleanup s u with activeEffect := some u, effectStack := (cleanup s u).effectStack ++ [u] } : State) (.body r.body)).out with
        | error er =>
          have hred : exec (Nat.succ n) s (.runE u)
              = ⟨(exec n ({ cleanup s u with activeEffect := some u, effectStack := (cleanup s u).effectStack ++ [u] } : State) (.body r.body)).st,
                  Event.runStart u :: (exec n ({ cleanup s u with activeEffect := some u, effectStack := (cleanup s u).effectStack ++ [u] } : State) (.body r.body)).tr,
                  .error er⟩ := by
            simp only [exec, hr, hb]
          rw [hred]
          exact DataOK_comp hmid m2 _ rfl _
            (by
              intro w hw
              rcases hw with h | h
              · simp at h
              · exact List.mem_cons_of_mem _ h)
            (by
              intro x hx
              rcases List.mem_cons.mp hx with h | h
              · exact absurd h (by simp)
              · exact Or.inr h) _
        | ok v =>
          have hred : exec (Nat.succ n) s (.runE u)
              = ⟨{ (exec n ({ cleanup s u with activeEffect := some u, effectStack := (cleanup s u).effectStack ++ [u] } : State) (.body r.body)).st with
                    effectStack := (exec n ({ cleanup s u with activeEffect := some u, effectStack := (cleanup s u).effectStack ++ [u] } : State) (.body r.body)).st.effectStack.dropLast,
                    activeEffect := (exec n ({ cleanup s u with activeEffect := some u, effectStack := (cleanup s u).effectStack ++ [u] } : State) (.body r.body)).st.effectStack.dropLast.getLast? },
                  Event.runStart u :: ((exec n ({ cleanup s u with activeEffect := some u, effectStack := (cleanup s u).effectStack ++ [u] } : State) (.body r.body)).tr ++ [Event.runEnd u]),
                  .ok v⟩ := by
            simp only [exec, hr, hb]
          rw [hred]
          refine DataOK_comp hmid m2 _ ?_ _ ?_ ?_ _
          · rfl
          · intro w hw
            rcases hw with h | h
            · simp at h
            · exact List.mem_cons_of_mem _ (List.mem_append.mpr (Or.inl h))
          · intro x hx
            rcases List.mem_cons.mp hx with h | h
            · exact absurd h (by simp)
            · rcases List.mem_append.mp h with h1 | h1
              · exact Or.inr h1
              · rw [List.mem_singleton] at h1
                exact absurd h1 (by simp)

theorem SysInv_init48 : SysInv init48 := by
  constructor
  · intro u o k
    simp [subsOf, depsOf, init48, assocLook]
  · intro o k
    simp [subsOf, init48, assocLook]
  · rfl
  · intro u hu
    simp [init48] at hu
  · intro u hu
    rfl

theorem SysInv_initCF : SysInv initCF := by
  constructor
  · intro u o k
    simp [subsOf, depsOf, initCF, assocLook]
  · intro o k
    simp [subsOf, initCF, assocLook]
  · rfl
  · intro u hu
    simp [initCF] at hu
  · intro u hu
    rfl

theorem SysInv.createLazy_pres {s : State} (hs : SysInv s) (g : Body) (opts : EffOptions)
    (cps : List (CompId × CompRec)) (nob : Nat) :
    SysInv { s with effects := assocSet s.effects s.nextEff ⟨g, [], opts⟩, nextEff := s.nextEff + 1, comps := cps, nextObj := nob } := by
  have hfresh : assocLook s.effects s.nextEff = none := hs.liveFresh _ (le_refl _)
  have hnew : ∀ w, depsOf ({ s with effects := assocSet s.effects s.nextEff ⟨g, [], opts⟩, nextEff := s.nextEff + 1, comps := cps, nextObj := nob } : State) w = depsOf s w := by
    intro w
    by_cases hw : w = s.nextEff
    · subst hw
      simp [depsOf, assocLook_set_self, hfresh]
    · simp [depsOf, assocLook_set_other _ _ _ _ hw]
  constructor
  · intro v o k
    rw [hnew v]
    exact hs.bidir v o k
  · exact hs.nodupS
  · exact hs.activeTop
  · intro w hw
    by_cases hww : w = s.nextEff
    · subst hww
      simp [assocLook_set_self]
    · show (assocLook (assocSet s.effects s.nextEff ⟨g, [], opts⟩) w).isSome
      rw [assocLook_set_other _ _ _ _ hww]
      exact hs.stackLive w hw
  · intro w hw
    have hw' : s.nextEff + 1 ≤ w := hw
    have hww : w ≠ s.nextEff := by omega
    show assocLook (assocSet s.effects s.nextEff ⟨g, [], opts⟩) w = none
    rw [assocLook_set_other _ _ _ _ hww]
    exact hs.liveFresh w (by omega)

theorem SysInv_runStep (fuel : Nat) (st : Step) (s : State) (hs : SysInv s) :
    SysInv (runStep fuel s st).st := by
  cases st with
  | newEffect b => exact (execMeta fuel (.body (.effectCall b)) s hs).1
  | newComputed g => exact hs.createLazy_pres g _ _ _
  | writeS o k v => exact (execMeta fuel (.body (.writeF o k (.lit v))) s hs).1
  | readValueS c => exact (execMeta fuel (.body (.readComp c)) s hs).1
  | readS o k => exact (execMeta fuel (.body (.readF o k)) s hs).1

theorem SysInv_runScript (fuel : Nat) : ∀ (l : List Step) (s : State), SysInv s →
    SysInv (runScript fuel s l).st := by
  intro l
  induction l with
  | nil => intro s hs; exact hs
  | cons st rest ih =>
    intro s hs
    cases ho : (runStep fuel s st).out with
    | error er =>
      have hred : runScript fuel s (st :: rest)
          = ⟨(runStep fuel s st).st, (runStep fuel s st).tr, .error er⟩ := by
        simp only [runScript, ho]
      rw [hred]
      exact SysInv_runStep fuel st s hs
    | ok v =>
      have hred : runScript fuel s (st :: rest)
          = ⟨(runScript fuel (runStep fuel s st).st rest).st,
              (runStep fuel s st).tr ++ (runScript fuel (runStep fuel s st).st rest).tr,
              (runScript fuel (runStep fuel s st).st rest).out⟩ := by
        simp only [runScript, ho]
      rw [hred]
      exact ih _ (SysInv_runStep fuel st s hs)

theorem countRun_eq_zero_iff (u : EffectId) (tr : List Event) :
    countRun u tr = 0 ↔ Event.runStart u ∉ tr := by
  unfold countRun
  rw [List.length_eq_zero, List.filter_eq_nil_iff]
  constructor
  · intro h hm
    have := h _ hm
    simp at this
  · intro h e he
    simp only [decide_eq_true_eq]
    intro hd
    rw [hd] at he
    exact h he

theorem countRun_cons_self (u : EffectId) (tr : List Event) :
    countRun u (Event.runStart u :: tr) = countRun u tr + 1 := by
  simp [countRun, List.filter]

/-- Core helper for the non-reentrant run theorems: if one `effectFn` call
returns normally and its trace shows exactly one start of `u` (so `u` was
not re-entered by any nested trigger), then afterwards `u` is subscribed to
exactly the fields whose `track u` events appear, and its deps array lists
exactly those fields. -/
theorem runE_nonreentrant (fuel : Nat) (s : State) (u : EffectId) (v : Int)
    (hs : SysInv s) (hok : (exec fuel s (.runE u)).out = Except.ok v)
    (hcnt : countRun u (exec fuel s (.runE u)).tr = 1) :
    ∀ o k, (u ∈ subsOf (exec fuel s (.runE u)).st o k
        ↔ Event.track u o k ∈ (exec fuel s (.runE u)).tr)
      ∧ ((o, k) ∈ depsOf (exec fuel s (.runE u)).st u
        ↔ Event.track u o k ∈ (exec fuel s (.runE u)).tr) := by
  cases fuel with
  | zero => cases hok
  | succ n =>
    cases hr : assocLook s.effects u with
    | none =>
      have : (exec (Nat.succ n) s (.runE u)).out = Except.error .badRef := by
        simp only [exec, hr]
      rw [this] at hok
      cases hok
    | some r =>
      have hs1 : SysInv (cleanup s u) := hs.cleanup_pres u
      have hlook1 : (assocLook (cleanup s u).effects u).isSome := by
        rw [effectsLook_cleanup_isSome, hr]
        rfl
      have hs2 : SysInv ({ cleanup s u with activeEffect := some u, effectStack := (cleanup s u).effectStack ++ [u] } : State) :=
        hs1.push_pres hlook1
      have m := execMeta n (.body r.body) _ hs2
      cases hb : (exec n ({ cleanup s u with activeEffect := some u, effectStack := (cleanup s u).effectStack ++ [u] } : State) (.body r.body)).out with
      | error er =>
        have : (exec (Nat.succ n) s (.runE u)).out = Except.error er := by
          simp only [exec, hr, hb]
        rw [this] at hok
        cases hok
      | ok w =>
        have hred : exec (Nat.succ n) s (.runE u)
            = ⟨{ (exec n ({ cleanup s u with activeEffect := some u, effectStack := (cleanup s u).effectStack ++ [u] } : State) (.body r.body)).st with
                  effectStack := (exec n ({ cleanup s u with activeEffect := some u, effectStack := (cleanup s u).effectStack ++ [u] } : State) (.body r.body)).st.effectStack.dropLast,
                  activeEffect := (exec n ({ cleanup s u with activeEffect := some u, effectStack := (cleanup s u).effectStack ++ [u] } : State) (.body r.body)).st.effectStack.dropLast.getLast? },
                Event.runStart u :: ((exec n ({ cleanup s u with activeEffect := some u, effectStack := (cleanup s u).effectStack ++ [u] } : State) (.body r.body)).tr ++ [Event.runEnd u]),
                .ok w⟩ := by
          simp only [exec, hr, hb]
        rw [hred] at hcnt ⊢
        have hcnt2 : countRun u (Event.runStart u :: ((exec n ({ cleanup s u with activeEffect := some u, effectStack := (cleanup s u).effectStack ++ [u] } : State) (.body r.body)).tr ++ [Event.runEnd u])) = 1 := hcnt
        have hz : countRun u ((exec n ({ cleanup s u with activeEffect := some u, effectStack := (cleanup s u).effectStack ++ [u] } : State) (.body r.body)).tr ++ [Event.runEnd u]) = 0 := by
          have hx := countRun_cons_self u ((exec n ({ cleanup s u with activeEffect := some u, effectStack := (cleanup s u).effectStack ++ [u] } : State) (.body r.body)).tr ++ [Event.runEnd u])
          omega
      -- no runStart u inside the body evaluation
        have hnot : Event.runStart u
            ∉ (exec n ({ cleanup s u with activeEffect := some u, effectStack := (cleanup s u).effectStack ++ [u] } : State) (.body r.body)).tr := by
          have h0 := (countRun_eq_zero_iff u _).mp hz
          intro hmem
          exact h0 (List.mem_append.mpr (Or.inl hmem))
        intro o k
        obtain ⟨ms, md⟩ := m.2.2 u hnot o k
        have hsub0 : u ∉ subsOf (cleanup s u) o k :=
          mem_subs_cleanup_self s u hs.nodupS (fun o' k' h => (hs.bidir u o' k').mp h) o k
        have hdep0 : depsOf (cleanup s u) u = [] := depsOf_cleanup_self s u
        have htrc : Event.track u o k
            ∈ Event.runStart u :: ((exec n ({ cleanup s u with activeEffect := some u, effectStack := (cleanup s u).effectStack ++ [u] } : State) (.body r.body)).tr ++ [Event.runEnd u])
            ↔ Event.track u o k
            ∈ (exec n ({ cleanup s u with activeEffect := some u, effectStack := (cleanup s u).effectStack ++ [u] } : State) (.body r.body)).tr := by
          simp
        constructor
        · refine (ms.trans ?_).trans htrc.symm
          constructor
          · rintro (h | h)
            · exact absurd h hsub0
            · exact h
          · intro h
            exact Or.inr h
        · refine (md.trans ?_).trans htrc.symm
          constructor
          · rintro (h | h)
            · rw [show depsOf ({ cleanup s u with activeEffect := some u, effectStack := (cleanup s u).effectStack ++ [u] } : State) u = depsOf (cleanup s u) u from rfl, hdep0] at h
              cases h
            · exact h
          · intro h
            exact Or.inr h

theorem noWritesTo_spec {o : ObjId} {k : Key} {tr : List Event}
    (h : noWritesTo o k tr = true) : ∀ w, Event.writeEv o k w ∉ tr := by
  intro w hmem
  have := List.all_eq_true.mp h _ hmem
  simp at this

/-- C1 counterexample: the unit U (id 1) reads field F during a call to
run() that returns normally, yet immediately after that run() returns U is
not a member of F's subscriber set, and F's set is not in U's deps array —
because a nested write chain re-entered U during the very same run and its
cleanup dropped the subscription.  This refutes the claim as stated. -/
theorem c1_counterexample :
    c1res.out = Except.ok 1
    ∧ Event.track 1 0 "F" ∈ c1res.tr
    ∧ 1 ∉ subsOf c1res.st 0 "F"
    ∧ (0, "F") ∉ depsOf c1res.st 1 := by
  decide

/-- C1 (amended): (a) bidirectional consistency is an invariant — from any
invariant state, after any interpreter call a unit is in a field's
subscriber set iff that set's address is in the unit's deps array; (b) if a
run() of unit u returns normally and u is not re-entered during it (its
trace holds exactly one runStart u), then for every field F that u read
during the run (a track u event), u is in F's subscriber set and F's set is
in u's deps array immediately after the run. -/
theorem c1_amended :
    (∀ fuel c s, SysInv s → ∀ u o k,
        u ∈ subsOf (exec fuel s c).st o k ↔ (o, k) ∈ depsOf (exec fuel s c).st u)
    ∧ (∀ fuel s u v, SysInv s → (exec fuel s (.runE u)).out = Except.ok v →
        countRun u (exec fuel s (.runE u)).tr = 1 →
        ∀ o k, Event.track u o k ∈ (exec fuel s (.runE u)).tr →
          u ∈ subsOf (exec fuel s (.runE u)).st o k
          ∧ (o, k) ∈ depsOf (exec fuel s (.runE u)).st u) := by
  constructor
  · intro fuel c s hs u o k
    exact (execMeta fuel c s hs).1.bidir u o k
  · intro fuel s u v hs hok hcnt o k htr
    obtain ⟨h1, h2⟩ := runE_nonreentrant fuel s u v hs hok hcnt o k
    exact ⟨h1.mpr htr, h2.mpr htr⟩

theorem c1_witness :
    0 ∈ subsOf (exec 20 c1wPre (.runE 0)).st 0 "foo"
    ∧ (0, "foo") ∈ depsOf (exec 20 c1wPre (.runE 0)).st 0 := by
  have hs1 : SysInv c1wPre :=
    SysInv_runStep 20 (.newEffect (.readF 0 "foo")) init48 SysInv_init48
  exact c1_amended.2 20 c1wPre 0 1 hs1 (by decide) (by decide) 0 "foo" (by decide)

/-- C2: trigger's notify snapshot semantics.  (a) The snapshot
`effectsToRun` never contains the currently executing effect (the writer),
so a self-write cannot recurse; (b) under the invariants the snapshot is
duplicate-free, so each collected unit is invoked exactly once per pass;
(c) concretely, an effect that reads and then writes foo runs exactly once
at creation (its own write triggers nothing), and an external write to foo
re-runs it exactly once even though its execution re-adds it to foo's live
subscriber set during the pass, and it ends the pass re-subscribed. -/
theorem c2_trigger_snapshot :
    (∀ (s : State) (o : ObjId) (k : Key) (w : EffectId),
      s.activeEffect = some w → w ∉ effectsToRun s o k)
    ∧ (∀ (s : State) (o : ObjId) (k : Key), SysInv s → (effectsToRun s o k).Nodup)
    ∧ countRun 0 c2create.tr = 1
    ∧ c2create.out = Except.ok 0
    ∧ countRun 0 c2write.tr = 1
    ∧ c2write.out = Except.ok 7
    ∧ 0 ∈ subsOf c2write.st 0 "foo" := by
  refine ⟨?_, ?_, by decide, by decide, by decide, by decide, by decide⟩
  · intro s o k w ha hmem
    unfold effectsToRun at hmem
    rw [List.mem_filter] at hmem
    have hp := hmem.2
    rw [ha] at hp
    simp at hp
  · intro s o k hs
    exact (hs.nodupS o k).filter _

theorem c2_witness :
    0 ∉ effectsToRun ({ c2create.st with activeEffect := some 0 } : State) 0 "foo"
    ∧ (effectsToRun init48 0 "foo").Nodup :=
  ⟨c2_trigger_snapshot.1 _ 0 "foo" 0 rfl,
    c2_trigger_snapshot.2.1 init48 0 "foo" SysInv_init48⟩

/-- C3 counterexample: after this run of unit U (id 1) returns, the most
recent (innermost, re-entrant) execution of U read only field c, yet U is
subscribed to both c and K — and the outer execution did read F, yet U is
not subscribed to F.  Under either reading of "most recent execution", U's
subscriptions are not exactly the fields read during it, refuting the
claim as stated. -/
theorem c3_counterexample :
    c3res.out = Except.ok 1
    ∧ lastRunReads 1 c3res.tr = [(0, "c")]
    ∧ 1 ∈ subsOf c3res.st 0 "K"
    ∧ (0, "K") ∉ lastRunReads 1 c3res.tr
    ∧ Event.track 1 0 "F" ∈ c3res.tr
    ∧ 1 ∉ subsOf c3res.st 0 "F" := by
  decide

/-- C3 (amended): (a) cleanup really removes the unit from every subscriber
set in its deps list and empties the list — under the invariants, after
`cleanup` the unit is in no subscriber set and its deps array is empty;
(b) if a run() of unit u returns normally and u is not re-entered during it
(exactly one runStart u in its trace), then after the run u is subscribed to
exactly the fields read during that run: u is in a field's subscriber set
iff a track u event for that field occurs in the run's trace.  In
particular a field not read during the run (such as a branch no longer
taken) is dropped. -/
theorem c3_amended :
    (∀ (s : State) (u : EffectId), SysInv s →
      depsOf (cleanup s u) u = [] ∧ ∀ o k, u ∉ subsOf (cleanup s u) o k)
    ∧ (∀ fuel s u v, SysInv s → (exec fuel s (.runE u)).out = Except.ok v →
        countRun u (exec fuel s (.runE u)).tr = 1 →
        ∀ o k, (u ∈ subsOf (exec fuel s (.runE u)).st o k
          ↔ Event.track u o k ∈ (exec fuel s (.runE u)).tr)) := by
  constructor
  · intro s u hs
    refine ⟨depsOf_cleanup_self s u, ?_⟩
    intro o k
    exact mem_subs_cleanup_self s u hs.nodupS (fun o' k' h => (hs.bidir u o' k').mp h) o k
  · intro fuel s u v hs hok hcnt o k
    exact (runE_nonreentrant fuel s u v hs hok hcnt o k).1

theorem c3_witness :
    (0 ∈ subsOf (exec 20 c3wPre (.runE 0)).st 0 "bar"
      ↔ Event.track 0 0 "bar" ∈ (exec 20 c3wPre (.runE 0)).tr) := by
  have hs1 : SysInv c3wPre :=
    SysInv_runStep 20 (.newEffect (.readF 0 "bar")) init48 SysInv_init48
  exact c3_amended.2 20 c3wPre 0 2 hs1 (by decide) (by decide) 0 "bar"

/-- C4: computed caching.  For the computed over foo + bar (with foo = 1,
bar = 2): the first value read runs the getter exactly once and returns 3;
the second read with no intervening writes runs the getter zero more times
and returns the same 3; after writing foo := 5 (getter still not run), the
next single read runs the getter exactly once more and returns the updated
sum 7. -/
theorem c4_computed_caching :
    c4r1.out = Except.ok 3 ∧ countRun 0 c4r1.tr = 1
    ∧ c4r2.out = Except.ok 3 ∧ countRun 0 c4r2.tr = 0
    ∧ countRun 0 c4r3.tr = 0
    ∧ c4r4.out = Except.ok 7 ∧ countRun 0 c4r4.tr = 1 := by
  decide

theorem c5_first_write (v : Int) : runStep 30 c5s1 (.writeS 0 "foo" v)
    = ⟨c5T v, [Event.writeEv 0 "foo" v], Except.ok v⟩ := rfl

theorem c5_Twrite (x v : Int) : runStep 30 (c5T x) (.writeS 0 "foo" v)
    = ⟨c5T v, [Event.writeEv 0 "foo" v], Except.ok v⟩ := rfl

theorem c5_Tread (x : Int) : runStep 30 (c5T x) (.readValueS 0)
    = ⟨c5clean x,
        [Event.runStart 0, Event.track 0 0 "foo", Event.readEv 0 "foo" x,
          Event.track 0 0 "bar", Event.readEv 0 "bar" 2, Event.runEnd 0],
        Except.ok (x + 2)⟩ := rfl

theorem countRun_writeEv_cons (u : EffectId) (o : ObjId) (k : Key) (w : Int) (tr : List Event) :
    countRun u (Event.writeEv o k w :: tr) = countRun u tr := by
  simp [countRun, List.filter]

theorem countRun_writeEvs (u : EffectId) (o : ObjId) (k : Key) : ∀ (l : List Int),
    countRun u (l.map (fun w => Event.writeEv o k w)) = 0 := by
  intro l
  induction l with
  | nil => rfl
  | cons v l' ih =>
    rw [List.map_cons, countRun_writeEv_cons]
    exact ih

theorem c5_writes_template : ∀ (l : List Int) (x : Int),
    runScript 30 (c5T x) (c5writes l)
      = ⟨c5T (lastD x l), l.map (fun v => Event.writeEv 0 "foo" v), Except.ok 0⟩ := by
  intro l
  induction l with
  | nil => intro x; rfl
  | cons v l' ih =>
    intro x
    have hred : runScript 30 (c5T x) (c5writes (v :: l'))
        = ⟨(runScript 30 (c5T v) (c5writes l')).st,
            [Event.writeEv 0 "foo" v] ++ (runScript 30 (c5T v) (c5writes l')).tr,
            (runScript 30 (c5T v) (c5writes l')).out⟩ := by
      show runScript 30 (c5T x) (Step.writeS 0 "foo" v :: c5writes l') = _
      simp only [runScript, c5_Twrite]
    rw [hred, ih v]
    rfl

/-- C5: laziness and coalescing of the computed.  Before any write the
getter has run exactly once (during the single value read).  Across any
nonempty sequence of upstream writes to foo with no intervening reads: the
getter is not invoked at all (zero runStart events), the computed is marked
dirty, and the first value read after the writes invokes the getter exactly
once more (its trace holds exactly one runStart) and returns the updated
sum, last written value + bar. -/
theorem c5_lazy_coalescing (v : Int) (vs : List Int) :
    countRun 0 (runScript 30 init48 [.newComputed sumGetter, .readValueS 0]).tr = 1
    ∧ countRun 0 (runScript 30 c5s1 (c5writes (v :: vs))).tr = 0
    ∧ (compOf (runScript 30 c5s1 (c5writes (v :: vs))).st 0).map CompRec.dirty = some true
    ∧ countRun 0 (runStep 30 (runScript 30 c5s1 (c5writes (v :: vs))).st (.readValueS 0)).tr = 1
    ∧ (runStep 30 (runScript 30 c5s1 (c5writes (v :: vs))).st (.readValueS 0)).out
        = Except.ok (lastD v vs + 2) := by
  have h1 : runScript 30 c5s1 (c5writes (v :: vs))
      = ⟨(runScript 30 (c5T v) (c5writes vs)).st,
          [Event.writeEv 0 "foo" v] ++ (runScript 30 (c5T v) (c5writes vs)).tr,
          (runScript 30 (c5T v) (c5writes vs)).out⟩ := by
    show runScript 30 c5s1 (Step.writeS 0 "foo" v :: c5writes vs) = _
    simp only [runScript, c5_first_write]
  have hfull : runScript 30 c5s1 (c5writes (v :: vs))
      = ⟨c5T (lastD v vs),
          Event.writeEv 0 "foo" v :: vs.map (fun w => Event.writeEv 0 "foo" w),
          Except.ok 0⟩ := by
    rw [h1, c5_writes_template vs v]
    rfl
  refine ⟨by decide, ?_, ?_, ?_, ?_⟩
  · rw [hfull]
    show countRun 0 (Event.writeEv 0 "foo" v :: vs.map (fun w => Event.writeEv 0 "foo" w)) = 0
    rw [countRun_writeEv_cons, countRun_writeEvs]
  · rw [hfull]
    rfl
  · rw [hfull]
    show countRun 0 (runStep 30 (c5T (lastD v vs)) (.readValueS 0)).tr = 1
    rw [c5_Tread]
    rfl
  · rw [hfull]
    show (runStep 30 (c5T (lastD v vs)) (.readValueS 0)).out = Except.ok (lastD v vs + 2)
    rw [c5_Tread]

/-- C6 counterexample: an effect whose wrapped computation raises.  Before
the run, activeEffect was none and the stack empty; the run propagates the
exception, and afterwards activeEffect is still the failed effect and the
stack still contains it — the pop/restore (exit) never ran on the raising
path, because effectFn has no try/finally.  This refutes the claim that
exit is performed on every exit path. -/
theorem c6_counterexample :
    c6res.out = Except.error Err.thrown
    ∧ c6res.st.activeEffect = some 0
    ∧ c6res.st.effectStack = [0] := by
  decide

/-- C6 (amended): on NORMAL completion of a run, the pop and restore are
performed exactly once: the effect stack and activeEffect afterwards equal
their values before the run.  (When the computation raises, the restore is
skipped — see the counterexample.) -/
theorem c6_amended (fuel : Nat) (s : State) (u : EffectId) (v : Int) (hs : SysInv s)
    (hok : (exec fuel s (.runE u)).out = Except.ok v) :
    (exec fuel s (.runE u)).st.effectStack = s.effectStack
    ∧ (exec fuel s (.runE u)).st.activeEffect = s.activeEffect :=
  (execMeta fuel (.runE u) s hs).2.1 v hok

theorem c6_witness :
    (exec 20 c6wPre (.runE 0)).st.effectStack = []
    ∧ (exec 20 c6wPre (.runE 0)).st.activeEffect = none := by
  have hs1 : SysInv c6wPre := SysInv_runStep 20 _ init48 SysInv_init48
  have h := c6_amended 20 c6wPre 0 2 hs1 (by decide)
  exact ⟨h.1.trans (by decide), h.2.trans (by decide)⟩

/-- C7 counterexample: both effects 0 and 1 subscribe to foo; on the write,
the snapshot contains both, effect 0 runs and raises, and effect 1 — still
in the snapshot — is never invoked: the exception aborts the forEach over
the snapshot, refuting per-unit failure isolation. -/
theorem c7_counterexample :
    1 ∈ subsOf c7state 0 "foo"
    ∧ 1 ∈ effectsToRun (setData c7state 0 "foo" 1) 0 "foo"
    ∧ c7res.out = Except.error Err.thrown
    ∧ Event.runStart 0 ∈ c7res.tr
    ∧ Event.runStart 1 ∉ c7res.tr := by
  decide

/-- C7 (amended): a subscriber's exception is NOT isolated: when invoking
the head of the snapshot fails, the iteration aborts immediately — the
remaining snapshot elements are not invoked, and the error propagates out
of trigger (concretely, the demo write ends in the thrown error after
exactly one subscriber ran). -/
theorem c7_amended :
    (∀ fuel (s : State) (u : EffectId) (rest : List EffectId) (er : Err),
      (exec fuel s (.invoke u)).out = Except.error er →
      exec (Nat.succ fuel) s (.allE (u :: rest))
        = ⟨(exec fuel s (.invoke u)).st, (exec fuel s (.invoke u)).tr, Except.error er⟩)
    ∧ c7res.out = Except.error Err.thrown
    ∧ countRun 0 c7res.tr = 1 := by
  refine ⟨?_, by decide, by decide⟩
  intro fuel s u rest er he
  simp only [exec, he]

theorem c7_witness :
    exec 21 (setData c7state 0 "foo" 1) (.allE [0, 1])
      = ⟨(exec 20 (setData c7state 0 "foo" 1) (.invoke 0)).st,
          (exec 20 (setData c7state 0 "foo" 1) (.invoke 0)).tr, Except.error Err.thrown⟩ :=
  c7_amended.1 20 (setData c7state 0 "foo" 1) 0 [1] Err.thrown (by decide)

/-- C8 counterexample: the 4-6.js `track`, called while no effect is
active, does NOT return without error and without modification: it creates
the bucket entry, adds `null` to the subscriber set, and then raises on
`activeEffect.deps.push`. -/
theorem c8_counterexample :
    (track46 s46 0 "foo").2 = Except.error Err.thrown
    ∧ (track46 s46 0 "foo").1.bucket = [((0, "foo"), [none])]
    ∧ ¬(track46 s46 0 "foo").1 = s46 := by
  decide

/-- C8 (amended): the guard exists only in the 4.8 iteration.  There,
`track` with no active effect returns the state unchanged and records
nothing.  In 4-6.js, `track` with no active effect raises (TypeError on
null.deps.push) after having already added `null` to the field's
subscriber set. -/
theorem c8_amended :
    (∀ (s : State) (o : ObjId) (k : Key), s.activeEffect = none → track s o k = (s, []))
    ∧ (∀ (s : State46) (o : ObjId) (k : Key), s.activeEffect = none →
        (track46 s o k).2 = Except.error Err.thrown
        ∧ (none : Option EffectId) ∈ (assocLook (track46 s o k).1.bucket (o, k)).getD []) := by
  constructor
  · intro s o k h
    exact track_tr_none s o k h
  · intro s o k h
    have ho : (track46 s o k).2 = Except.error Err.thrown := by
      unfold track46
      rw [h]
    have hb : (track46 s o k).1.bucket
        = assocSet s.bucket (o, k)
            (if (none : Option EffectId) ∈ (assocLook s.bucket (o, k)).getD []
              then (assocLook s.bucket (o, k)).getD []
              else (assocLook s.bucket (o, k)).getD [] ++ [none]) := by
      unfold track46
      rw [h]
    refine ⟨ho, ?_⟩
    rw [hb, assocLook_set_self, Option.getD_some]
    by_cases hm : (none : Option EffectId) ∈ (assocLook s.bucket (o, k)).getD []
    · rw [if_pos hm]
      exact hm
    · rw [if_neg hm]
      exact List.mem_append.mpr (Or.inr (List.mem_singleton.mpr rfl))

theorem c8_witness :
    track init48 0 "foo" = (init48, [])
    ∧ (track46 ⟨[((1, "z"), [some 5])], [], none⟩ 2 "w").2 = Except.error Err.thrown :=
  ⟨c8_amended.1 init48 0 "foo" rfl,
    (c8_amended.2 ⟨[((1, "z"), [some 5])], [], none⟩ 2 "w" rfl).1⟩

/-- C9: nesting attribution.  (a) Generally: from any invariant state with
current unit w, a nested effect-creation call that completes normally
leaves activeEffect equal to some w again.  (b) Concretely: after running
the outer effect 0 (which nests effect 1 reading bar, then reads foo), foo's
subscriber set is exactly the outer effect, bar's is exactly the inner one,
and foo (not bar) is in the outer effect's deps. -/
theorem c9_nesting :
    (∀ fuel (s : State) (b : Body) (w : EffectId) (v : Int), SysInv s →
      s.activeEffect = some w →
      (exec fuel s (.body (.effectCall b))).out = Except.ok v →
      (exec fuel s (.body (.effectCall b))).st.activeEffect = some w)
    ∧ c9res.out = Except.ok 0
    ∧ subsOf c9res.st 0 "foo" = [0]
    ∧ subsOf c9res.st 0 "bar" = [1]
    ∧ (0, "foo") ∈ depsOf c9res.st 0
    ∧ (0, "bar") ∉ depsOf c9res.st 0 := by
  refine ⟨?_, by decide, by decide, by decide, by decide, by decide⟩
  intro fuel s b w v hs ha hok
  have h := (execMeta fuel (.body (.effectCall b)) s hs).2.1 v hok
  rw [h.2, ha]

theorem c9_witness :
    (exec 20 c9wPre (.body (.effectCall (.lit 7)))).st.activeEffect = some 0 := by
  have hbase : SysInv (runStep 20 init48 (.newEffect (.readF 0 "foo"))).st :=
    SysInv_runStep 20 _ init48 SysInv_init48
  have hsW : SysInv c9wPre := by
    constructor
    · exact hbase.bidir
    · exact hbase.nodupS
    · rfl
    · intro u hu
      have hu' : u ∈ [0] := hu
      rw [List.mem_singleton] at hu'
      subst hu'
      decide
    · intro u hu
      exact hbase.liveFresh u hu
  exact c9_nesting.1 20 c9wPre (.lit 7) 0 1 hsW rfl (by decide)

/-- C10 counterexample: writing foo := 5 notifies subscribers 0 and 1;
subscriber 0 overwrites foo with 7 during the pass, and subscriber 1 —
invoked during that same notification pass — reads foo and observes 7, not
the written value 5.  This refutes "every subscriber invoked during that
notification pass that reads F observes the new value v" as stated. -/
theorem c10_counterexample :
    1 ∈ subsOf c10state 0 "foo"
    ∧ c10res.out = Except.ok 5
    ∧ Event.runStart 1 ∈ c10res.tr
    ∧ Event.readEv 0 "foo" 7 ∈ lastRunEvents 1 c10res.tr
    ∧ Event.readEv 0 "foo" 5 ∉ lastRunEvents 1 c10res.tr := by
  decide

/-- C10 (amended): (a) the set trap stores the value into the target
BEFORE calling trigger — the write expression literally runs trigger on the
post-store state and keeps the writeEv before the notification trace;
(b) when the field has no subscribers, the write still goes through and
trigger is a no-op; (c) as long as the notification pass itself performs no
further write to the field, its stored value remains v and every raw read
of the field during the pass observes v. -/
theorem c10_amended :
    (∀ (n : Nat) (s : State) (o : ObjId) (k : Key) (v : Int),
      exec (Nat.succ (Nat.succ n)) s (.body (.writeF o k (.lit v)))
        = ⟨(exec (Nat.succ n) (setData s o k v) (.trig o k)).st,
            [Event.writeEv o k v] ++ (exec (Nat.succ n) (setData s o k v) (.trig o k)).tr,
            match (exec (Nat.succ n) (setData s o k v) (.trig o k)).out with
            | .ok _ => Except.ok v
            | .error er => Except.error er⟩)
    ∧ (∀ (fuel : Nat) (s : State) (o : ObjId) (k : Key), subsOf s o k = [] →
        exec (Nat.succ (Nat.succ fuel)) s (.trig o k) = ⟨s, [], Except.ok 0⟩)
    ∧ (∀ (fuel : Nat) (s : State) (o : ObjId) (k : Key) (v : Int),
        noWritesTo o k (exec fuel (setData s o k v) (.trig o k)).tr = true →
          dataOf (exec fuel (setData s o k v) (.trig o k)).st o k = v
          ∧ ∀ x, Event.readEv o k x ∈ (exec fuel (setData s o k v) (.trig o k)).tr → x = v) := by
  refine ⟨?_, ?_, ?_⟩
  · intro n s o k v
    rfl
  · intro fuel s o k h
    show exec (Nat.succ fuel) s (.allE (effectsToRun s o k)) = _
    unfold effectsToRun
    rw [h]
    rfl
  · intro fuel s o k v h
    have hd := execData fuel (.trig o k) (setData s o k v) o k (noWritesTo_spec h)
    rw [dataOf_setData_self] at hd
    exact hd

theorem c10_witness :
    dataOf (exec 20 (setData c10w 0 "foo" 5) (.trig 0 "foo")).st 0 "foo" = 5
    ∧ ∀ x, Event.readEv 0 "foo" x ∈ (exec 20 (setData c10w 0 "foo" 5) (.trig 0 "foo")).tr
        → x = 5 :=
  c10_amended.2.2 20 c10w 0 "foo" 5 (by decide)
